import Mathlib

/-!
# Verification of the ResumeParsing heuristic pipeline

Shallow embedding of the resume-parsing repository's heuristic core:

* `src/app/methods/old.py` — fuzzy skill matching and the multi-factor
  ATS score (`fuzzy_match_skills`, `calculate_enhanced_ats_score`);
* `src/parsing/extractors/text_cleaner.py` — `TextCleaner.clean` and
  `TextCleaner.extract_sections` with their helper heuristics;
* `src/parsing/extractors/entity_extractor.py` — `_extract_experience`
  and `_extract_dates`;
* `src/parsing/core/parser.py` — `parse_batch`.

Python floats are modelled as rationals (`ℚ`), Python strings as Lean
`String`/`List Char` with character classes restricted to their ASCII
behaviour (`\w` = ASCII alphanumeric or underscore, `\s` = ASCII
whitespace, `\d` = ASCII digit).  External collaborators (spaCy NER,
sentence embeddings, rapidfuzz similarity, the file system) enter as
explicit function parameters; everything the repository itself computes
is embedded executably.
-/

namespace ResumeParsing

/-! ## Character classes and basic string utilities -/

/-- ASCII lowercase letter `[a-z]`. -/
def isLowerAZ (c : Char) : Bool :=
  97 ≤ c.toNat && c.toNat ≤ 122

/-- ASCII uppercase letter `[A-Z]`. -/
def isUpperAZ (c : Char) : Bool :=
  65 ≤ c.toNat && c.toNat ≤ 90

/-- Python `\d` restricted to ASCII digits `[0-9]`. -/
def isDigitChar (c : Char) : Bool :=
  48 ≤ c.toNat && c.toNat ≤ 57

/-- Python `\w` restricted to ASCII: `[A-Za-z0-9_]`. -/
def isWordChar (c : Char) : Bool :=
  isLowerAZ c || isUpperAZ c || isDigitChar c || c = '_'

/-- Python `\s` restricted to ASCII: space, tab, newline, carriage
return, vertical tab, form feed. -/
def isSpaceChar (c : Char) : Bool :=
  c = ' ' || c = '\t' || c = '\n' || c = '\r' || c = '\x0b' || c = '\x0c'

/-- Python `str.strip()` on a character list: drop leading and trailing
whitespace. -/
def stripChars (xs : List Char) : List Char :=
  ((xs.dropWhile isSpaceChar).reverse.dropWhile isSpaceChar).reverse

/-- Python `str.strip()`. -/
def pyStrip (s : String) : String :=
  ⟨stripChars s.data⟩

/-- Split a character list into maximal runs of non-whitespace
characters (Python `str.split()` with no argument). -/
def splitWsChars : List Char → List (List Char)
  | [] => []
  | c :: rest =>
    if isSpaceChar c then splitWsChars rest
    else
      match splitWsChars rest with
      | [] => [[c]]
      | w :: ws =>
        -- glue `c` onto the following word unless a space separated them
        match rest with
        | [] => [[c]]
        | c' :: _ => if isSpaceChar c' then [c] :: w :: ws else (c :: w) :: ws

/-- Python `str.split()` (split on whitespace runs, no empty pieces). -/
def pySplitWs (s : String) : List String :=
  (splitWsChars s.data).map fun w => ⟨w⟩

/-- Number of whitespace-separated words, `len(text.split())`. -/
def wordCount (s : String) : ℕ :=
  (pySplitWs s).length

/-- Python `str.split(sep)` for a one-character separator: empty
pieces are kept (`"".split(c) == [""]`). -/
def splitChar (sep : Char) : List Char → List (List Char)
  | [] => [[]]
  | c :: rest =>
    if c = sep then [] :: splitChar sep rest
    else
      match splitChar sep rest with
      | [] => [[c]]
      | w :: ws => (c :: w) :: ws

/-- Python `text.split('\n')`. -/
def pySplitNl (s : String) : List String :=
  (splitChar '\n' s.data).map fun w => ⟨w⟩

/-! ## Rounding (Python `round(x, 2)` modelled over `ℚ`)

Python's `round` uses round-half-to-even.  We model floats as exact
rationals, so `round(x, 2)` becomes: scale by 100, round half to even
to an integer, and scale back. -/

/-- Round a rational to the nearest integer, ties to even
(Python's `round` on a number with no second argument). -/
def roundHalfEven (q : ℚ) : ℤ :=
  if q - (⌊q⌋ : ℚ) < 1/2 then ⌊q⌋
  else if 1/2 < q - (⌊q⌋ : ℚ) then ⌊q⌋ + 1
  else if ⌊q⌋ % 2 = 0 then ⌊q⌋ else ⌊q⌋ + 1

/-- Python `round(x, 2)` over the rational model. -/
def round2 (q : ℚ) : ℚ :=
  (roundHalfEven (q * 100) : ℚ) / 100

theorem roundHalfEven_nonneg {q : ℚ} (h : 0 ≤ q) : 0 ≤ roundHalfEven q := by
  have hf : (0 : ℤ) ≤ ⌊q⌋ := Int.le_floor.mpr (by exact_mod_cast h)
  unfold roundHalfEven
  by_cases h1 : q - (⌊q⌋ : ℚ) < 1/2
  · rw [if_pos h1]; exact hf
  · rw [if_neg h1]
    by_cases h2 : 1/2 < q - (⌊q⌋ : ℚ)
    · rw [if_pos h2]; omega
    · rw [if_neg h2]
      by_cases h3 : ⌊q⌋ % 2 = 0
      · rw [if_pos h3]; exact hf
      · rw [if_neg h3]; omega

theorem roundHalfEven_le {q : ℚ} {n : ℤ} (h : q ≤ n) : roundHalfEven q ≤ n := by
  have hf : ⌊q⌋ ≤ n := le_trans (Int.floor_le_floor h) (le_of_eq (Int.floor_intCast n))
  unfold roundHalfEven
  by_cases h1 : q - (⌊q⌋ : ℚ) < 1/2
  · rw [if_pos h1]; exact hf
  · have hne : ⌊q⌋ ≠ n := by
      intro heq
      apply h1
      have hq : q - (⌊q⌋ : ℚ) ≤ 0 := by
        rw [heq]; exact sub_nonpos.mpr h
      linarith
    rw [if_neg h1]
    by_cases h2 : 1/2 < q - (⌊q⌋ : ℚ)
    · rw [if_pos h2]; omega
    · rw [if_neg h2]
      by_cases h3 : ⌊q⌋ % 2 = 0
      · rw [if_pos h3]; omega
      · rw [if_neg h3]; omega

theorem round2_nonneg {q : ℚ} (h : 0 ≤ q) : 0 ≤ round2 q := by
  unfold round2
  have : (0 : ℚ) ≤ (roundHalfEven (q * 100) : ℚ) := by
    exact_mod_cast roundHalfEven_nonneg (by positivity)
  positivity

theorem round2_le_100 {q : ℚ} (h : q ≤ 100) : round2 q ≤ 100 := by
  unfold round2
  have h1 : q * 100 ≤ ((10000 : ℤ) : ℚ) := by push_cast; linarith
  have h2 : roundHalfEven (q * 100) ≤ 10000 := roundHalfEven_le h1
  have h3 : ((roundHalfEven (q * 100) : ℤ) : ℚ) ≤ 10000 := by exact_mod_cast h2
  linarith

/-! ## `src/app/methods/old.py` — fuzzy matching and the ATS score

External capabilities are parameters:
* `fz jd_skill resume_skill : ℚ` — `rapidfuzz.fuzz.token_sort_ratio`;
* `es text : Finset String` — `extract_skills_and_keywords` (spaCy NER
  plus synonym normalisation; a black box producing a set of strings);
* `cos : ℚ` — `util.cos_sim` of the two sentence embeddings.
-/

/-- `rapidfuzz.process.extractOne(jd_skill, resume_skills, scorer,
score_cutoff)`: the best similarity score over `resume_skills`, returned
only when it reaches the cutoff (otherwise `None`).  Only the score of
the best match is consumed by the caller. -/
def extractOneScore (fz : String → String → ℚ) (resume_skills : Finset String)
    (cutoff : ℚ) (jd_skill : String) : Option ℚ :=
  ((resume_skills.image (fz jd_skill)).max).bind
    fun m => if cutoff ≤ m then some m else none

/-- `fuzzy_match_skills` (old.py:111-128): matched subset of
`jd_skills`. -/
def fuzzyMatchedSkills (fz : String → String → ℚ) (resume_skills jd_skills : Finset String)
    (threshold : ℚ) : Finset String :=
  jd_skills.filter fun j => (extractOneScore fz resume_skills threshold j).isSome

/-- `fuzzy_match_skills` (old.py:111-128): the `skill_scores` mapping,
defined on exactly the matched skills. -/
def fuzzySkillScores (fz : String → String → ℚ) (resume_skills jd_skills : Finset String)
    (threshold : ℚ) (j : String) : Option ℚ :=
  if j ∈ jd_skills then extractOneScore fz resume_skills threshold j else none

/-- The fixed critical-skill list (old.py:150). -/
def criticalSkills : Finset String :=
  {"python", "java", "javascript", "react", "sql", "aws", "docker", "kubernetes"}

/-- The score report returned by `calculate_enhanced_ats_score`
(old.py:177-188). -/
structure ScoreReport where
  semantic_score : ℚ
  skill_match_score : ℚ
  critical_match_score : ℚ
  length_score : ℚ
  final_score : ℚ
  matched_skills : Finset String
  missing_skills : Finset String
  skill_scores : String → Option ℚ
  total_jd_skills : ℕ
  total_resume_skills : ℕ

/-- Unrounded semantic score (old.py:136): cosine similarity × 100. -/
def semanticRaw (cos : ℚ) : ℚ := cos * 100

/-- Unrounded skill-match score (old.py:144-147). -/
def skillMatchRaw (fz : String → String → ℚ) (es : String → Finset String)
    (resume_text jd_text : String) : ℚ :=
  let resume_skills := es resume_text
  let jd_skills := es jd_text
  let matched := fuzzyMatchedSkills fz resume_skills jd_skills 85
  if jd_skills ≠ ∅ then (matched.card : ℚ) / jd_skills.card * 100 else 0

/-- Unrounded critical-skill score (old.py:150-157). -/
def criticalMatchRaw (es : String → Finset String) (resume_text jd_text : String) : ℚ :=
  let jd_critical := (es jd_text) ∩ criticalSkills
  let resume_critical := (es resume_text) ∩ criticalSkills
  if jd_critical ≠ ∅ then
    ((jd_critical ∩ resume_critical).card : ℚ) / jd_critical.card * 100
  else 100

/-- Unrounded length score (old.py:160-165):
`length_ratio = min(resume_words / max(jd_words, 100), 2.0)` and
`length_score = max(0, 100 - abs(1 - length_ratio) * 50)`. -/
def lengthScoreRaw (resume_text jd_text : String) : ℚ :=
  let resume_words : ℚ := wordCount resume_text
  let jd_words : ℕ := wordCount jd_text
  let lr : ℚ := min (resume_words / (max jd_words 100 : ℕ)) 2
  max 0 (100 - |1 - lr| * 50)

/-- `calculate_enhanced_ats_score` (old.py:130-188).  `cos` is the
embedding cosine similarity, `es` the skill/keyword extractor, `fz` the
fuzzy similarity scorer. -/
def calculate_enhanced_ats_score (cos : ℚ) (es : String → Finset String)
    (fz : String → String → ℚ) (resume_text jd_text : String) : ScoreReport :=
  let semantic_score := semanticRaw cos
  let resume_skills := es resume_text
  let jd_skills := es jd_text
  let matched_skills := fuzzyMatchedSkills fz resume_skills jd_skills 85
  let skill_match_score := skillMatchRaw fz es resume_text jd_text
  let critical_match_score := criticalMatchRaw es resume_text jd_text
  let length_score := lengthScoreRaw resume_text jd_text
  let final_score :=
    semantic_score * 0.40 + skill_match_score * 0.35 +
    critical_match_score * 0.20 + length_score * 0.05
  { semantic_score := round2 semantic_score
    skill_match_score := round2 skill_match_score
    critical_match_score := round2 critical_match_score
    length_score := round2 length_score
    final_score := round2 final_score
    matched_skills := matched_skills
    missing_skills := jd_skills \ matched_skills
    skill_scores := fuzzySkillScores fz resume_skills jd_skills 85
    total_jd_skills := jd_skills.card
    total_resume_skills := resume_skills.card }

/-! ### Claims C1–C4 about the scorer -/

/-- C1: for every pair of input texts (and every behaviour of the
external capabilities), `final_score` in the report returned by
`calculate_enhanced_ats_score` equals the linear combination
`0.40*semantic + 0.35*skill_match + 0.20*critical_match + 0.05*length`
of the four unrounded component scores, rounded to 2 decimal places,
and the weights sum to 1.00. -/
theorem final_score_is_weighted_combination (cos : ℚ) (es : String → Finset String)
    (fz : String → String → ℚ) (rt jt : String) :
    (calculate_enhanced_ats_score cos es fz rt jt).final_score
      = round2 (0.40 * semanticRaw cos + 0.35 * skillMatchRaw fz es rt jt
          + 0.20 * criticalMatchRaw es rt jt + 0.05 * lengthScoreRaw rt jt)
    ∧ (0.40 + 0.35 + 0.20 + 0.05 : ℚ) = 1 := by
  constructor
  · show round2 (semanticRaw cos * 0.40 + skillMatchRaw fz es rt jt * 0.35
        + criticalMatchRaw es rt jt * 0.20 + lengthScoreRaw rt jt * 0.05) = _
    congr 1
    ring
  · norm_num

/-- C2: the degenerate cases of `calculate_enhanced_ats_score` are
guarded: an empty job-description skill set gives `skill_match_score =
0`, no critical skill in the job description gives
`critical_match_score = 100`, and the length-ratio denominator is
`max(jd_word_count, 100)`, so a job description with zero words still
yields the length score computed with denominator 100. -/
theorem scorer_degenerate_cases (cos : ℚ) (es : String → Finset String)
    (fz : String → String → ℚ) (rt jt : String) :
    (es jt = ∅ → (calculate_enhanced_ats_score cos es fz rt jt).skill_match_score = 0)
    ∧ ((es jt) ∩ criticalSkills = ∅ →
        (calculate_enhanced_ats_score cos es fz rt jt).critical_match_score = 100)
    ∧ (wordCount jt = 0 →
        (calculate_enhanced_ats_score cos es fz rt jt).length_score
          = round2 (max 0 (100 - |1 - min ((wordCount rt : ℚ) / 100) 2| * 50))) := by
  refine ⟨fun h => ?_, fun h => ?_, fun h => ?_⟩
  · show round2 (skillMatchRaw fz es rt jt) = 0
    unfold skillMatchRaw
    rw [h]
    simp [round2, roundHalfEven]
  · show round2 (criticalMatchRaw es rt jt) = 100
    unfold criticalMatchRaw
    rw [h]
    simp only [ne_eq, not_true_eq_false, if_false]
    norm_num [round2, roundHalfEven]
  · show round2 (lengthScoreRaw rt jt) = _
    unfold lengthScoreRaw
    rw [h]
    norm_num

/-- Witness for C2 at concrete degenerate inputs. -/
theorem scorer_degenerate_cases_witness :
    ((fun _ : String => (∅ : Finset String)) "" = ∅
      ∧ (calculate_enhanced_ats_score 0 (fun _ => ∅) (fun _ _ => 0) "" "").skill_match_score = 0)
    ∧ ((fun _ : String => (∅ : Finset String)) "" ∩ criticalSkills = ∅
      ∧ (calculate_enhanced_ats_score 0 (fun _ => ∅) (fun _ _ => 0) "" "").critical_match_score = 100)
    ∧ (wordCount "" = 0
      ∧ (calculate_enhanced_ats_score 0 (fun _ => ∅) (fun _ _ => 0) "" "").length_score
          = round2 (max 0 (100 - |1 - min ((wordCount "" : ℚ) / 100) 2| * 50))) :=
  ⟨⟨rfl, (scorer_degenerate_cases 0 (fun _ => ∅) (fun _ _ => 0) "" "").1 rfl⟩,
   ⟨by decide, (scorer_degenerate_cases 0 (fun _ => ∅) (fun _ _ => 0) "" "").2.1 (by decide)⟩,
   ⟨by decide, (scorer_degenerate_cases 0 (fun _ => ∅) (fun _ _ => 0) "" "").2.2 (by decide)⟩⟩

/-- C3: for every fuzzy scorer, skill sets `A` (resume) and `B` (job
description) and threshold `τ`: the matched set is a subset of `B`; the
score map is defined on exactly the matched elements; every recorded
score is at least `τ`; and the missing set the scorer derives equals
`B` minus the matched set. -/
theorem fuzzy_match_skills_spec (fz : String → String → ℚ) (A B : Finset String) (τ : ℚ) :
    fuzzyMatchedSkills fz A B τ ⊆ B
    ∧ (∀ j q, fuzzySkillScores fz A B τ j = some q → τ ≤ q)
    ∧ (∀ j, j ∈ fuzzyMatchedSkills fz A B τ ↔ (fuzzySkillScores fz A B τ j).isSome)
    ∧ (∀ (cos : ℚ) (es : String → Finset String) (rt jt : String),
        (calculate_enhanced_ats_score cos es fz rt jt).missing_skills
          = es jt \ (calculate_enhanced_ats_score cos es fz rt jt).matched_skills) := by
  refine ⟨Finset.filter_subset _ _, fun j q h => ?_, fun j => ?_, fun _ _ _ _ => rfl⟩
  · unfold fuzzySkillScores at h
    by_cases hj : j ∈ B
    · rw [if_pos hj] at h
      unfold extractOneScore at h
      rcases hm : (A.image (fz j)).max with _ | m
      · rw [hm] at h; exact absurd h (by simp)
      · rw [hm, Option.some_bind] at h
        by_cases hc : τ ≤ m
        · rw [if_pos hc] at h
          cases h
          exact hc
        · rw [if_neg hc] at h; exact absurd h (by simp)
    · rw [if_neg hj] at h; exact absurd h (by simp)
  · unfold fuzzyMatchedSkills fuzzySkillScores
    rw [Finset.mem_filter]
    by_cases hj : j ∈ B
    · rw [if_pos hj]; simp [hj]
    · rw [if_neg hj]; simp [hj]

/-- Witness for C3: a concrete matched skill whose recorded score meets
the threshold. -/
theorem fuzzy_match_skills_spec_witness :
    fuzzySkillScores (fun _ _ => 100) {"python"} {"python"} 85 "python" = some 100
    ∧ (85 : ℚ) ≤ 100 :=
  ⟨by decide,
   (fuzzy_match_skills_spec (fun _ _ => 100) {"python"} {"python"} 85).2.1 "python" 100 (by decide)⟩

/-- Counterexample to C4 as stated: with a negative embedding cosine
similarity (which the external capability may return, cosine being in
[-1,1]), the reported `semantic_score` is negative, outside [0,100]. -/
theorem component_scores_range_counterexample :
    (calculate_enhanced_ats_score (-(1/2)) (fun _ => ∅) (fun _ _ => 0) "" "").semantic_score = -50
    ∧ ¬ (0 ≤ (calculate_enhanced_ats_score (-(1/2)) (fun _ => ∅) (fun _ _ => 0) "" "").semantic_score) := by
  have h : (calculate_enhanced_ats_score (-(1/2)) (fun _ => ∅) (fun _ _ => 0) "" "").semantic_score
      = round2 (semanticRaw (-(1/2))) := rfl
  rw [h]
  norm_num [semanticRaw, round2, roundHalfEven]

/-- C4 amended: `skill_match_score`, `critical_match_score` and
`length_score` always lie in [0,100]; `semantic_score` lies in [0,100]
provided the embedding cosine similarity lies in [0,1] (without that
proviso it can be negative). -/
theorem component_scores_in_range (cos : ℚ) (es : String → Finset String)
    (fz : String → String → ℚ) (rt jt : String) (h0 : 0 ≤ cos) (h1 : cos ≤ 1) :
    (0 ≤ (calculate_enhanced_ats_score cos es fz rt jt).semantic_score
      ∧ (calculate_enhanced_ats_score cos es fz rt jt).semantic_score ≤ 100)
    ∧ (0 ≤ (calculate_enhanced_ats_score cos es fz rt jt).skill_match_score
      ∧ (calculate_enhanced_ats_score cos es fz rt jt).skill_match_score ≤ 100)
    ∧ (0 ≤ (calculate_enhanced_ats_score cos es fz rt jt).critical_match_score
      ∧ (calculate_enhanced_ats_score cos es fz rt jt).critical_match_score ≤ 100)
    ∧ (0 ≤ (calculate_enhanced_ats_score cos es fz rt jt).length_score
      ∧ (calculate_enhanced_ats_score cos es fz rt jt).length_score ≤ 100) := by
  have hsem : 0 ≤ semanticRaw cos ∧ semanticRaw cos ≤ 100 := by
    unfold semanticRaw; constructor <;> nlinarith
  have hskill : 0 ≤ skillMatchRaw fz es rt jt ∧ skillMatchRaw fz es rt jt ≤ 100 := by
    unfold skillMatchRaw
    by_cases h : es jt ≠ ∅
    · rw [if_pos h]
      have hsub : fuzzyMatchedSkills fz (es rt) (es jt) 85 ⊆ es jt :=
        Finset.filter_subset _ _
      have hcard : (fuzzyMatchedSkills fz (es rt) (es jt) 85).card ≤ (es jt).card :=
        Finset.card_le_card hsub
      have hpos : 0 < ((es jt).card : ℚ) := by
        have : 0 < (es jt).card := Finset.card_pos.mpr (Finset.nonempty_iff_ne_empty.mpr h)
        exact_mod_cast this
      constructor
      · positivity
      · have hdiv : ((fuzzyMatchedSkills fz (es rt) (es jt) 85).card : ℚ) / (es jt).card ≤ 1 := by
          rw [div_le_one hpos]
          exact_mod_cast hcard
        nlinarith
    · rw [if_neg h]; norm_num
  have hcrit : 0 ≤ criticalMatchRaw es rt jt ∧ criticalMatchRaw es rt jt ≤ 100 := by
    unfold criticalMatchRaw
    by_cases h : (es jt) ∩ criticalSkills ≠ ∅
    · rw [if_pos h]
      have hsub : ((es jt) ∩ criticalSkills) ∩ ((es rt) ∩ criticalSkills)
          ⊆ (es jt) ∩ criticalSkills := Finset.inter_subset_left
      have hcard := Finset.card_le_card hsub
      have hpos : 0 < (((es jt) ∩ criticalSkills).card : ℚ) := by
        have : 0 < ((es jt) ∩ criticalSkills).card :=
          Finset.card_pos.mpr (Finset.nonempty_iff_ne_empty.mpr h)
        exact_mod_cast this
      constructor
      · positivity
      · have hdiv : ((((es jt) ∩ criticalSkills) ∩ ((es rt) ∩ criticalSkills)).card : ℚ)
            / ((es jt) ∩ criticalSkills).card ≤ 1 := by
          rw [div_le_one hpos]
          exact_mod_cast hcard
        nlinarith
    · rw [if_neg h]; norm_num
  have hlen : 0 ≤ lengthScoreRaw rt jt ∧ lengthScoreRaw rt jt ≤ 100 := by
    unfold lengthScoreRaw
    constructor
    · exact le_max_left _ _
    · apply max_le (by norm_num)
      have habs : 0 ≤ |1 - min ((wordCount rt : ℚ) / (max (wordCount jt) 100 : ℕ)) 2| :=
        abs_nonneg _
      nlinarith
  exact ⟨⟨round2_nonneg hsem.1, round2_le_100 hsem.2⟩,
    ⟨round2_nonneg hskill.1, round2_le_100 hskill.2⟩,
    ⟨round2_nonneg hcrit.1, round2_le_100 hcrit.2⟩,
    ⟨round2_nonneg hlen.1, round2_le_100 hlen.2⟩⟩

/-- Witness for the amended C4 at a concrete in-range cosine. -/
theorem component_scores_in_range_witness :
    (0 : ℚ) ≤ 1/2 ∧ (1/2 : ℚ) ≤ 1
    ∧ (0 ≤ (calculate_enhanced_ats_score (1/2) (fun _ => ∅) (fun _ _ => 0) "" "").semantic_score
      ∧ (calculate_enhanced_ats_score (1/2) (fun _ => ∅) (fun _ _ => 0) "" "").semantic_score ≤ 100) :=
  ⟨by norm_num, by norm_num,
   (component_scores_in_range (1/2) (fun _ => ∅) (fun _ _ => 0) "" ""
     (by norm_num) (by norm_num)).1⟩

/-! ## `src/parsing/extractors/text_cleaner.py` — `TextCleaner.clean`

Each `re.sub` in `clean` is embedded as a left-to-right scan that, at
every position, either consumes a match (resuming after it, as Python's
`re.sub` does) or emits one character.  The individual patterns are
simple enough that Python's greedy/backtracking behaviour is
deterministic; this is noted per matcher. -/

/-- ASCII lowercasing of one character (Python `str.lower` restricted
to ASCII). -/
def lowerChar (c : Char) : Char :=
  if isUpperAZ c then Char.ofNat (c.toNat + 32) else c

/-- Match a literal string prefix, returning the remainder. -/
def tryLit : List Char → List Char → Option (List Char)
  | [], s => some s
  | _ :: _, [] => none
  | c :: cs, d :: ds => if d = c then tryLit cs ds else none

/-- Match a literal (given lowercase) prefix case-insensitively,
returning the remainder. -/
def tryLitCI : List Char → List Char → Option (List Char)
  | [], s => some s
  | _ :: _, [] => none
  | c :: cs, d :: ds => if lowerChar d = c then tryLitCI cs ds else none

/-- Matcher for `--- PAGE \d+ ---` (text_cleaner.py:116).  `\d+` is
greedy and digits cannot match the following space, so the maximal
digit run is the unique possibility. -/
def tryPageMarker (s : List Char) : Option (List Char) :=
  match tryLit "--- PAGE ".data s with
  | none => none
  | some s1 =>
    let ds := s1.takeWhile isDigitChar
    if ds.length = 0 then none
    else tryLit " ---".data (s1.drop ds.length)

/-- Matcher for `Resume of\s+` with IGNORECASE (text_cleaner.py:117).
`\s+` is greedy with nothing after it, so it takes the maximal
whitespace run. -/
def tryResumeOf (s : List Char) : Option (List Char) :=
  match tryLitCI "resume of".data s with
  | none => none
  | some s1 =>
    let ws := s1.takeWhile isSpaceChar
    if ws.length = 0 then none else some (s1.drop ws.length)

/-- Matcher for `Curriculum Vitae` with IGNORECASE
(text_cleaner.py:118). -/
def tryCurriculumVitae (s : List Char) : Option (List Char) :=
  tryLitCI "curriculum vitae".data s

/-- Matcher for `[.]{3,}` (text_cleaner.py:169): a maximal run of at
least three dots. -/
def tryDotRun (s : List Char) : Option (List Char) :=
  let run := s.takeWhile (· = '.')
  if 3 ≤ run.length then some (s.drop run.length) else none

/-- Matcher for `[-]{3,}` (text_cleaner.py:170). -/
def tryDashRun (s : List Char) : Option (List Char) :=
  let run := s.takeWhile (· = '-')
  if 3 ≤ run.length then some (s.drop run.length) else none

/-- Index of the last `'\n'` in a list, if any. -/
def lastNewlineIdx (run : List Char) : Option ℕ :=
  match run.reverse.findIdx? (· = '\n') with
  | none => none
  | some i => some (run.length - 1 - i)

/-- Matcher for `\n\s*\d+\s*\n` (text_cleaner.py:173).  The leading
`\s*` is greedy and whitespace cannot match `\d`, so it takes the
maximal whitespace run; the trailing greedy `\s*` backtracks so that
the final `\n` of the pattern lands on the last newline inside the
whitespace run following the digits. -/
def tryNumLine (s : List Char) : Option (List Char) :=
  match s with
  | [] => none
  | c :: s1 =>
    if c = '\n' then
      let w1 := s1.takeWhile isSpaceChar
      let s2 := s1.drop w1.length
      let ds := s2.takeWhile isDigitChar
      if ds.length = 0 then none
      else
        let s3 := s2.drop ds.length
        let run := s3.takeWhile isSpaceChar
        match lastNewlineIdx run with
        | none => none
        | some k => some (s3.drop (k + 1))
    else none

/-- Matcher for `\n\s*\n` (text_cleaner.py:131), with the same
backtracking analysis as `tryNumLine`. -/
def tryDoubleNewline (s : List Char) : Option (List Char) :=
  match s with
  | [] => none
  | c :: s1 =>
    if c = '\n' then
      let run := s1.takeWhile isSpaceChar
      match lastNewlineIdx run with
      | none => none
      | some k => some (s1.drop (k + 1))
    else none

/-- Driver for `re.sub`: scan left to right; on a match, emit the
replacement and resume after the match, otherwise emit one character.
All matchers above consume at least one character, so fuel
`s.length` is sufficient. -/
def subScanAux (try1 : List Char → Option (List Char)) (repl : List Char) :
    ℕ → List Char → List Char
  | _, [] => []
  | 0, s => s
  | fuel + 1, c :: rest =>
    match try1 (c :: rest) with
    | some rem => repl ++ subScanAux try1 repl fuel rem
    | none => c :: subScanAux try1 repl fuel rest

/-- `re.sub(pattern, repl, s)` for the patterns above. -/
def subScan (try1 : List Char → Option (List Char)) (repl : List Char)
    (s : List Char) : List Char :=
  subScanAux try1 repl s.length s

/-- `_normalize_unicode` (text_cleaner.py:135-151).  The sequential
`str.replace` calls are a pointwise character map: every source
character is distinct, no replacement output is itself a replaced
character, and the `'•'` entry maps the bullet to itself (the
replacement literal in the source is the same bullet character). -/
def normalizeUnicodeChar (c : Char) : Char :=
  if c = '–' then '-'
  else if c = '—' then '-'
  else if c = '‘' then '\''
  else if c = '’' then '\''
  else if c = '“' then '"'
  else if c = '”' then '"'
  else if c = ' ' then ' '
  else c

/-- Is the previous character a word character (for `\b` checks)? -/
def prevIsWord : Option Char → Bool
  | none => false
  | some c => isWordChar c

/-- Is the next character a word character (for `\b` checks)? -/
def headIsWord : List Char → Bool
  | [] => false
  | c :: _ => isWordChar c

/-- `re.sub(r'\b<target>\b', repl, s)` for a single word-class target
character: replace `target` wherever both neighbours (or the string
ends) are non-word. -/
def subIsolatedAux (target repl : Char) : Option Char → List Char → List Char
  | _, [] => []
  | prev, c :: rest =>
    if c = target && !(prevIsWord prev) && !(headIsWord rest) then
      repl :: subIsolatedAux target repl (some repl) rest
    else
      c :: subIsolatedAux target repl (some c) rest

/-- Fuelled scan for `re.sub(r'(\w)l(\w)', r'\1I\2', s)`; every step
consumes at least one character, so fuel `s.length` is sufficient. -/
def subMidWordLAux : ℕ → List Char → List Char
  | 0, s => s
  | fuel + 1, s =>
    match s with
    | c1 :: c2 :: c3 :: rest =>
      if c2 = 'l' && isWordChar c1 && isWordChar c3 then
        c1 :: 'I' :: c3 :: subMidWordLAux fuel rest
      else
        c1 :: subMidWordLAux fuel (c2 :: c3 :: rest)
    | s => s

/-- `re.sub(r'(\w)l(\w)', r'\1I\2', s)` (text_cleaner.py:158):
left-to-right, non-overlapping — after a replacement the scan resumes
after the consumed `\w l \w` triple. -/
def subMidWordL (s : List Char) : List Char :=
  subMidWordLAux s.length s

/-- `_fix_ocr_errors` (text_cleaner.py:153-164): the three fixes in
source order. -/
def fixOcrChars (s : List Char) : List Char :=
  subMidWordL (subIsolatedAux '0' 'O' none (subIsolatedAux 'l' 'I' none s))

/-- `_remove_noise` (text_cleaner.py:166-175): dots, dashes, then
standalone numeric lines. -/
def removeNoiseChars (s : List Char) : List Char :=
  subScan tryNumLine ['\n'] (subScan tryDashRun "---".data (subScan tryDotRun "...".data s))

theorem dropWhile_length_le {α : Type} (p : α → Bool) (l : List α) :
    (l.dropWhile p).length ≤ l.length := by
  induction l with
  | nil => simp [List.dropWhile]
  | cons c rest ih =>
    rw [List.dropWhile]
    by_cases h : p c
    · rw [h]
      simpa using Nat.le_succ_of_le ih
    · simp only [Bool.not_eq_true] at h
      rw [h]

/-- Fuelled scan for `re.sub(r'\s+', ' ', s)`; every step consumes at
least one character, so fuel `s.length` is sufficient. -/
def collapseWsAux : ℕ → List Char → List Char
  | 0, s => s
  | _ + 1, [] => []
  | fuel + 1, c :: rest =>
    if isSpaceChar c then ' ' :: collapseWsAux fuel (rest.dropWhile isSpaceChar)
    else c :: collapseWsAux fuel rest

/-- `re.sub(r'\s+', ' ', s)` (text_cleaner.py:130). -/
def collapseWsChars (s : List Char) : List Char :=
  collapseWsAux s.length s

/-- `TextCleaner.clean` (text_cleaner.py:110-133) on character lists:
page markers, "Resume of", "Curriculum Vitae", Unicode normalisation,
OCR fixes, noise removal, whitespace collapsing, newline collapsing,
strip. -/
def cleanChars (s : List Char) : List Char :=
  stripChars
    (subScan tryDoubleNewline ['\n']
      (collapseWsChars
        (removeNoiseChars
          (fixOcrChars
            ((subScan tryCurriculumVitae []
              (subScan tryResumeOf []
                (subScan tryPageMarker [] s))).map normalizeUnicodeChar)))))

/-- `TextCleaner.clean` (text_cleaner.py:110-133). -/
def clean (s : String) : String :=
  if s = "" then "" else ⟨cleanChars s.data⟩

/-! ### Claim C5: is `clean` idempotent? -/

theorem lowerChar_of_lower {c : Char} (h : isLowerAZ c = true) : lowerChar c = c := by
  have h' : ¬ isUpperAZ c = true := by
    simp only [isLowerAZ, Bool.and_eq_true, decide_eq_true_eq] at h
    simp only [isUpperAZ, Bool.and_eq_true, decide_eq_true_eq]
    omega
  unfold lowerChar
  simp [h']

theorem tryLit_mem {lit : List Char} : ∀ {s r : List Char}, tryLit lit s = some r →
    ∀ c ∈ lit, c ∈ s := by
  induction lit with
  | nil => intro s r _ c hc; simp at hc
  | cons a as ih =>
    intro s r h c hc
    cases s with
    | nil => simp [tryLit] at h
    | cons d ds =>
      simp only [tryLit] at h
      by_cases hda : d = a
      · rw [if_pos hda] at h
        rcases List.mem_cons.mp hc with h1 | h1
        · exact List.mem_cons.mpr (Or.inl (h1.trans hda.symm))
        · exact List.mem_cons_of_mem _ (ih h c h1)
      · rw [if_neg hda] at h; cases h

theorem tryLitCI_mem {lit : List Char} : ∀ {s r : List Char}, tryLitCI lit s = some r →
    ∀ c ∈ lit, ∃ d ∈ s, lowerChar d = c := by
  induction lit with
  | nil => intro s r _ c hc; simp at hc
  | cons a as ih =>
    intro s r h c hc
    cases s with
    | nil => simp [tryLitCI] at h
    | cons d ds =>
      simp only [tryLitCI] at h
      by_cases hda : lowerChar d = a
      · rw [if_pos hda] at h
        rcases List.mem_cons.mp hc with h1 | h1
        · exact ⟨d, List.mem_cons_self d ds, h1 ▸ hda⟩
        · obtain ⟨d', hd', he⟩ := ih h c h1
          exact ⟨d', List.mem_cons_of_mem _ hd', he⟩
      · rw [if_neg hda] at h; cases h

theorem tryPageMarker_none (t : List Char) (hs : ∀ c ∈ t, isLowerAZ c = true) :
    tryPageMarker t = none := by
  unfold tryPageMarker
  rcases h : tryLit "--- PAGE ".data t with _ | s1
  · rfl
  · exact absurd (hs '-' (tryLit_mem h '-' (by decide))) (by decide)

theorem tryResumeOf_none (t : List Char) (hs : ∀ c ∈ t, isLowerAZ c = true) :
    tryResumeOf t = none := by
  unfold tryResumeOf
  rcases h : tryLitCI "resume of".data t with _ | s1
  · rfl
  · exfalso
    obtain ⟨d, hd, hld⟩ := tryLitCI_mem h ' ' (by decide)
    have hlow := hs d hd
    rw [lowerChar_of_lower hlow] at hld
    subst hld
    exact absurd hlow (by decide)

theorem tryCurriculumVitae_none (t : List Char) (hs : ∀ c ∈ t, isLowerAZ c = true) :
    tryCurriculumVitae t = none := by
  unfold tryCurriculumVitae
  rcases h : tryLitCI "curriculum vitae".data t with _ | s1
  · rfl
  · exfalso
    obtain ⟨d, hd, hld⟩ := tryLitCI_mem h ' ' (by decide)
    have hlow := hs d hd
    rw [lowerChar_of_lower hlow] at hld
    subst hld
    exact absurd hlow (by decide)

theorem tryDotRun_none (t : List Char) (hs : ∀ c ∈ t, isLowerAZ c = true) :
    tryDotRun t = none := by
  cases t with
  | nil => rfl
  | cons c cs =>
    have hc : ¬ (c = '.') := by
      intro he; subst he; exact absurd (hs '.' (List.mem_cons_self _ _)) (by decide)
    simp [tryDotRun, List.takeWhile_cons, hc]

theorem tryDashRun_none (t : List Char) (hs : ∀ c ∈ t, isLowerAZ c = true) :
    tryDashRun t = none := by
  cases t with
  | nil => rfl
  | cons c cs =>
    have hc : ¬ (c = '-') := by
      intro he; subst he; exact absurd (hs '-' (List.mem_cons_self _ _)) (by decide)
    simp [tryDashRun, List.takeWhile_cons, hc]

theorem tryNumLine_none (t : List Char) (hs : ∀ c ∈ t, isLowerAZ c = true) :
    tryNumLine t = none := by
  cases t with
  | nil => rfl
  | cons c cs =>
    have hc : ¬ (c = '\n') := by
      intro he; subst he; exact absurd (hs '\n' (List.mem_cons_self _ _)) (by decide)
    simp [tryNumLine, hc]

theorem tryDoubleNewline_none (t : List Char) (hs : ∀ c ∈ t, isLowerAZ c = true) :
    tryDoubleNewline t = none := by
  cases t with
  | nil => rfl
  | cons c cs =>
    have hc : ¬ (c = '\n') := by
      intro he; subst he; exact absurd (hs '\n' (List.mem_cons_self _ _)) (by decide)
    simp [tryDoubleNewline, hc]

theorem subScanAux_id (try1 : List Char → Option (List Char)) (repl : List Char)
    (P : Char → Prop) (hnone : ∀ t, (∀ c ∈ t, P c) → try1 t = none) :
    ∀ (fuel : ℕ) (s : List Char), (∀ c ∈ s, P c) → subScanAux try1 repl fuel s = s := by
  intro fuel
  induction fuel with
  | zero => intro s _; cases s <;> rfl
  | succ n ih =>
    intro s hs
    cases s with
    | nil => rfl
    | cons c rest =>
      have h := hnone (c :: rest) hs
      simp only [subScanAux, h]
      exact congrArg (c :: ·) (ih rest fun d hd => hs d (List.mem_cons_of_mem _ hd))

theorem subScan_id (try1 : List Char → Option (List Char)) (repl : List Char)
    (P : Char → Prop) (hnone : ∀ t, (∀ c ∈ t, P c) → try1 t = none)
    (s : List Char) (hs : ∀ c ∈ s, P c) : subScan try1 repl s = s :=
  subScanAux_id try1 repl P hnone s.length s hs

theorem subIsolatedAux_id (target repl : Char) (P : Char → Prop)
    (hne : ∀ c, P c → c ≠ target) :
    ∀ (s : List Char) (prev : Option Char), (∀ c ∈ s, P c) →
      subIsolatedAux target repl prev s = s := by
  intro s
  induction s with
  | nil => intro prev _; rfl
  | cons c rest ih =>
    intro prev hs
    have hc : ¬ (c = target) := hne c (hs c (List.mem_cons_self _ _))
    simp only [subIsolatedAux, hc, decide_False, Bool.false_and]
    exact congrArg (c :: ·) (ih (some c) fun d hd => hs d (List.mem_cons_of_mem _ hd))

theorem subMidWordLAux_id (P : Char → Prop) (hne : ∀ c, P c → c ≠ 'l') :
    ∀ (fuel : ℕ) (s : List Char), (∀ c ∈ s, P c) → subMidWordLAux fuel s = s := by
  intro fuel
  induction fuel with
  | zero => intro s _; rfl
  | succ n ih =>
    intro s hs
    rcases s with _ | ⟨c1, _ | ⟨c2, _ | ⟨c3, rest⟩⟩⟩
    · rfl
    · rfl
    · rfl
    · have hc2 : ¬ (c2 = 'l') :=
        hne c2 (hs c2 (List.mem_cons_of_mem _ (List.mem_cons_self _ _)))
      simp only [subMidWordLAux, hc2, decide_False, Bool.false_and, Bool.and_self,
        Bool.false_and, if_false]
      exact congrArg (c1 :: ·)
        (ih (c2 :: c3 :: rest) fun d hd => hs d (List.mem_cons_of_mem _ hd))

theorem dropWhile_id (p : Char → Bool) (s : List Char) (hs : ∀ c ∈ s, p c = false) :
    s.dropWhile p = s := by
  cases s with
  | nil => rfl
  | cons c rest =>
    rw [List.dropWhile_cons, hs c (List.mem_cons_self _ _)]
    simp

theorem collapseWsAux_id (P : Char → Prop) (hns : ∀ c, P c → isSpaceChar c = false) :
    ∀ (fuel : ℕ) (s : List Char), (∀ c ∈ s, P c) → collapseWsAux fuel s = s := by
  intro fuel
  induction fuel with
  | zero => intro s _; rfl
  | succ n ih =>
    intro s hs
    cases s with
    | nil => rfl
    | cons c rest =>
      have hc := hns c (hs c (List.mem_cons_self _ _))
      simp only [collapseWsAux, hc, Bool.false_eq_true, if_false]
      exact congrArg (c :: ·) (ih rest fun d hd => hs d (List.mem_cons_of_mem _ hd))

theorem stripChars_id (s : List Char) (hs : ∀ c ∈ s, isSpaceChar c = false) :
    stripChars s = s := by
  unfold stripChars
  rw [dropWhile_id _ s hs]
  rw [dropWhile_id _ s.reverse fun c hc => hs c (List.mem_reverse.mp hc)]
  exact List.reverse_reverse s

theorem normalizeUnicodeChar_of_lower {c : Char} (h : isLowerAZ c = true) :
    normalizeUnicodeChar c = c := by
  have h1 : ¬ (c = '–') := by intro he; subst he; exact absurd h (by decide)
  have h2 : ¬ (c = '—') := by intro he; subst he; exact absurd h (by decide)
  have h3 : ¬ (c = '‘') := by intro he; subst he; exact absurd h (by decide)
  have h4 : ¬ (c = '’') := by intro he; subst he; exact absurd h (by decide)
  have h5 : ¬ (c = '“') := by intro he; subst he; exact absurd h (by decide)
  have h6 : ¬ (c = '”') := by intro he; subst he; exact absurd h (by decide)
  have h7 : ¬ (c = ' ') := by intro he; subst he; exact absurd h (by decide)
  simp [normalizeUnicodeChar, h1, h2, h3, h4, h5, h6, h7]

theorem lower_not_space {c : Char} (h : isLowerAZ c = true) : isSpaceChar c = false := by
  have h1 : ¬ (c = ' ') := by intro he; subst he; exact absurd h (by decide)
  have h2 : ¬ (c = '\t') := by intro he; subst he; exact absurd h (by decide)
  have h3 : ¬ (c = '\n') := by intro he; subst he; exact absurd h (by decide)
  have h4 : ¬ (c = '\r') := by intro he; subst he; exact absurd h (by decide)
  have h5 : ¬ (c = '\x0b') := by intro he; subst he; exact absurd h (by decide)
  have h6 : ¬ (c = '\x0c') := by intro he; subst he; exact absurd h (by decide)
  simp [isSpaceChar, h1, h2, h3, h4, h5, h6]

/-- On texts made only of lowercase ASCII letters other than `'l'`,
every stage of `clean` is the identity. -/
theorem cleanChars_id (s : List Char)
    (hs : ∀ c ∈ s, isLowerAZ c = true ∧ c ≠ 'l') : cleanChars s = s := by
  have hlow : ∀ c ∈ s, isLowerAZ c = true := fun c hc => (hs c hc).1
  have h0 : ∀ c, (isLowerAZ c = true ∧ c ≠ 'l') → c ≠ '0' := by
    intro c hc he; subst he; exact absurd hc.1 (by decide)
  unfold cleanChars
  rw [subScan_id _ _ (fun c => isLowerAZ c = true)
    (fun t ht => tryPageMarker_none t ht) _ hlow]
  rw [subScan_id _ _ (fun c => isLowerAZ c = true)
    (fun t ht => tryResumeOf_none t ht) _ hlow]
  rw [subScan_id _ _ (fun c => isLowerAZ c = true)
    (fun t ht => tryCurriculumVitae_none t ht) _ hlow]
  rw [show s.map normalizeUnicodeChar = s from
    ((List.map_congr_left fun c hc => normalizeUnicodeChar_of_lower (hlow c hc)).trans
      (List.map_id s))]
  unfold fixOcrChars
  rw [subIsolatedAux_id 'l' 'I' (fun c => isLowerAZ c = true ∧ c ≠ 'l')
    (fun c hc => hc.2) _ _ hs]
  rw [subIsolatedAux_id '0' 'O' (fun c => isLowerAZ c = true ∧ c ≠ 'l') h0 _ _ hs]
  unfold subMidWordL
  rw [subMidWordLAux_id (fun c => isLowerAZ c = true ∧ c ≠ 'l') (fun c hc => hc.2) _ _ hs]
  unfold removeNoiseChars
  rw [subScan_id _ _ (fun c => isLowerAZ c = true)
    (fun t ht => tryDotRun_none t ht) _ hlow]
  rw [subScan_id _ _ (fun c => isLowerAZ c = true)
    (fun t ht => tryDashRun_none t ht) _ hlow]
  rw [subScan_id _ _ (fun c => isLowerAZ c = true)
    (fun t ht => tryNumLine_none t ht) _ hlow]
  unfold collapseWsChars
  rw [collapseWsAux_id (fun c => isLowerAZ c = true)
    (fun c hc => lower_not_space hc) _ _ hlow]
  rw [subScan_id _ _ (fun c => isLowerAZ c = true)
    (fun t ht => tryDoubleNewline_none t ht) _ hlow]
  exact stripChars_id s fun c hc => lower_not_space (hlow c hc)

/-- Counterexample to C5: cleaning is not idempotent.  The mid-word
`l → I` OCR substitution is non-overlapping per pass, so a second pass
rewrites an `'l'` the first pass skipped. -/
theorem clean_idempotent_counterexample :
    clean "hello" = "heIlo" ∧ clean (clean "hello") = "heIIo"
    ∧ clean (clean "hello") ≠ clean "hello" := by
  refine ⟨by decide, by decide, by decide⟩

/-- C5 amended: `clean` is not idempotent in general (see the
counterexample on "hello"); it is idempotent — indeed the identity — on
texts consisting solely of lowercase ASCII letters other than `'l'`. -/
theorem clean_idempotent_on_plain_lowercase (s : String)
    (h : ∀ c ∈ s.data, isLowerAZ c = true ∧ c ≠ 'l') :
    clean s = s ∧ clean (clean s) = clean s := by
  have hid : clean s = s := by
    unfold clean
    by_cases he : s = ""
    · rw [if_pos he, he]
    · rw [if_neg he, cleanChars_id s.data h]
  exact ⟨hid, by rw [hid]; exact hid⟩

/-- Witness for the amended C5 at a concrete text. -/
theorem clean_idempotent_on_plain_lowercase_witness :
    (∀ c ∈ "abc".data, isLowerAZ c = true ∧ c ≠ 'l')
    ∧ (clean "abc" = "abc" ∧ clean (clean "abc") = clean "abc") :=
  ⟨by decide, clean_idempotent_on_plain_lowercase "abc" (by decide)⟩

/-! ## A small regular-expression engine

The section-header and contact patterns of `text_cleaner.py` and the
date patterns of `patterns.py` are transcribed into this AST and
matched with Brzozowski derivatives.  Smart constructors keep
derivatives small so that concrete evaluation stays cheap. -/

/-- Regular expressions over characters; `cls` is a character class
given by a Boolean predicate. -/
inductive Rx : Type where
  | emp : Rx
  | eps : Rx
  | cls : (Char → Bool) → Rx
  | cat : Rx → Rx → Rx
  | alt : Rx → Rx → Rx
  | star : Rx → Rx

namespace Rx

/-- Does the language of `r` contain the empty string? -/
def nullable : Rx → Bool
  | emp => false
  | eps => true
  | cls _ => false
  | cat a b => nullable a && nullable b
  | alt a b => nullable a || nullable b
  | star _ => true

/-- Smart concatenation. -/
def mkCat : Rx → Rx → Rx
  | emp, _ => emp
  | _, emp => emp
  | eps, b => b
  | a, eps => a
  | a, b => cat a b

/-- Smart alternation. -/
def mkAlt : Rx → Rx → Rx
  | emp, b => b
  | a, emp => a
  | a, b => alt a b

/-- Brzozowski derivative of `r` by `c`. -/
def deriv : Rx → Char → Rx
  | emp, _ => emp
  | eps, _ => emp
  | cls p, c => if p c then eps else emp
  | cat a b, c =>
    if nullable a then mkAlt (mkCat (deriv a c) b) (deriv b c)
    else mkCat (deriv a c) b
  | alt a b, c => mkAlt (deriv a c) (deriv b c)
  | star a, c => mkCat (deriv a c) (star a)

/-- Does `r` match the whole string `s`? -/
def matchFull (r : Rx) : List Char → Bool
  | [] => nullable r
  | c :: rest => matchFull (deriv r c) rest

/-- Does `r` match some prefix of `s` (Python `re.match`)? -/
def prefMatch (r : Rx) : List Char → Bool
  | [] => nullable r
  | c :: rest => nullable r || prefMatch (deriv r c) rest

end Rx

/-- One character. -/
def chrRx (c : Char) : Rx := Rx.cls (· = c)

/-- A case-sensitive literal. -/
def litRx (s : String) : Rx := s.data.foldr (fun c r => Rx.cat (chrRx c) r) Rx.eps

/-- A case-insensitive literal (given in lowercase): each character
matches up to ASCII lowercasing. -/
def litCIRx (s : String) : Rx :=
  s.data.foldr (fun c r => Rx.cat (Rx.cls fun d => lowerChar d = c) r) Rx.eps

/-- Sequence of regexes. -/
def seqRx (rs : List Rx) : Rx := rs.foldr Rx.cat Rx.eps

/-- Alternation over a list. -/
def altRx (rs : List Rx) : Rx := rs.foldr Rx.alt Rx.emp

/-- `r?`. -/
def optRx (r : Rx) : Rx := Rx.alt Rx.eps r

/-- `r+`. -/
def plusRx (r : Rx) : Rx := Rx.cat r (Rx.star r)

/-- `r{n}`. -/
def repRx (r : Rx) (n : ℕ) : Rx := seqRx (List.replicate n r)

/-- `\s*`. -/
def sStar : Rx := Rx.star (Rx.cls isSpaceChar)

/-- `\s+`. -/
def sPlus : Rx := plusRx (Rx.cls isSpaceChar)

/-! ### Searching with word boundaries

`boundaryAt s i` is Python's `\b` at position `i`: the word-character
status differs on the two sides (positions outside the string count as
non-word). -/

def prevWordB : Option Char → Bool
  | none => false
  | some c => isWordChar c

/-- Scan for a match of `r` starting at the current position; `prev` is
the character before the current position, `rb` demands a `\b` at the
end of the match. -/
def scanB (rb : Bool) : Option Char → Rx → List Char → Bool
  | prev, r, [] => r.nullable && (!rb || prevWordB prev)
  | prev, r, c :: rest =>
    (r.nullable && (!rb || (prevWordB prev != isWordChar c))) ||
      scanB rb (some c) (r.deriv c) rest

/-- Is there a match of `r` anywhere in `s` (Python `re.search` as a
Boolean), with optional `\b` requirements at the start (`lb`) and end
(`rb`) of the match? -/
def searchBAux (lb rb : Bool) (r : Rx) : Option Char → List Char → Bool
  | prev, [] => (!lb || prevWordB prev) && scanB rb prev r []
  | prev, c :: rest =>
    ((!lb || (prevWordB prev != isWordChar c)) && scanB rb prev r (c :: rest)) ||
      searchBAux lb rb r (some c) rest

def searchB (lb rb : Bool) (r : Rx) (s : List Char) : Bool :=
  searchBAux lb rb r none s

/-- Length of the longest prefix of `s` matched by `r` (with an
optional trailing `\b`), if any.  Used to model `re.findall` for the
date patterns, whose character classes make the greedy backtracking
match coincide with the longest match at a position. -/
def longestFrom (rb : Bool) : Option Char → Rx → List Char → Option ℕ
  | prev, r, [] => if r.nullable && (!rb || prevWordB prev) then some 0 else none
  | prev, r, c :: rest =>
    match longestFrom rb (some c) (r.deriv c) rest with
    | some k => some (k + 1)
    | none =>
      if r.nullable && (!rb || (prevWordB prev != isWordChar c)) then some 0 else none

/-- `re.findall` (leftmost, non-overlapping; matches never empty for
the patterns transcribed here). -/
def findallAux (lb rb : Bool) (r : Rx) : ℕ → Option Char → List Char → List (List Char)
  | 0, _, _ => []
  | _ + 1, _, [] => []
  | fuel + 1, prev, c :: rest =>
    let startOk := !lb || (prevWordB prev != isWordChar c)
    match (if startOk then longestFrom rb prev r (c :: rest) else none) with
    | some (k + 1) =>
      ((c :: rest).take (k + 1)) ::
        findallAux lb rb r fuel (some ((c :: rest).getD k c)) ((c :: rest).drop (k + 1))
    | _ => findallAux lb rb r fuel (some c) rest

def findallB (lb rb : Bool) (r : Rx) (s : List Char) : List String :=
  (findallAux lb rb r s.length none s).map fun w => ⟨w⟩

/-! ## Section-header and contact patterns (`text_cleaner.py:22-108`)

Every pattern is compiled with IGNORECASE and anchored as
`^\s* ... \s*:?\s*$`; we therefore match the lowercased line against
lowercase literals.  `hdr mid` supplies the shared
leading/trailing parts. -/

def hdr (mid : List Rx) : Rx :=
  seqRx ([sStar] ++ mid ++ [sStar, optRx (chrRx ':'), sStar])

/-- `(?:w\s+)?` for a word `w`. -/
def optWordSp (w : String) : Rx := optRx (Rx.cat (litRx w) sPlus)

/-- `w s?` pluralisable literal. -/
def litS (w : String) : Rx := Rx.cat (litRx w) (optRx (chrRx 's'))

/-- The table `_compile_resume_section_patterns`
(text_cleaner.py:22-99), in dictionary insertion order. -/
def sectionPatterns : List (String × List Rx) :=
  [("contact_info",
    [hdr [litRx "contact", sStar, optRx (Rx.alt (litRx "info") (litRx "information"))],
     hdr [litRx "personal", sStar,
          optRx (altRx [litRx "info", litRx "information", litRx "details"])]]),
   ("summary",
    [hdr [optWordSp "professional", litRx "summary"],
     hdr [optWordSp "career", Rx.alt (litRx "summary") (litRx "overview")],
     hdr [optWordSp "executive", litRx "summary"],
     hdr [litRx "profile"],
     hdr [litRx "about", sStar, optRx (litRx "me")],
     hdr [litRx "objective"]]),
   ("experience",
    [hdr [optWordSp "work", litRx "experience"],
     hdr [optWordSp "professional", litRx "experience"],
     hdr [litRx "employment", sStar, optRx (litRx "history")],
     hdr [litRx "work", sStar, optRx (litRx "history")],
     hdr [litRx "career", sStar, optRx (litRx "history")],
     hdr [litS "position", sStar, optRx (litRx "held")]]),
   ("education",
    [hdr [litRx "education"],
     hdr [litRx "educational", sStar,
          optRx (Rx.alt (litRx "background") (litS "qualification"))],
     hdr [litRx "academic", sStar, optRx (litRx "background")],
     hdr [litS "qualification"]]),
   ("skills",
    [hdr [litS "skill"],
     hdr [optWordSp "technical", litS "skill"],
     hdr [optWordSp "core", litRx "competencies"],
     hdr [optWordSp "key", litS "skill", sStar,
          optRx (seqRx [litRx "and", sPlus, litRx "competencies"])],
     hdr [litRx "expertise"],
     hdr [litS "technologie"],
     hdr [litRx "technical", sStar, optRx (Rx.alt (litRx "knowledge") (litRx "expertise"))]]),
   ("projects",
    [hdr [litS "project"],
     hdr [optWordSp "key", litS "project"],
     hdr [optWordSp "notable", litS "project"],
     hdr [litRx "project", sStar, optRx (Rx.alt (litRx "experience") (litRx "work"))]]),
   ("certifications",
    [hdr [litS "certification"],
     hdr [litS "certificate"],
     hdr [optWordSp "professional", litS "certification"],
     hdr [litS "license", sStar,
          optRx (seqRx [litRx "and", sPlus, litS "certification"])]]),
   ("achievements",
    [hdr [litS "achievement"],
     hdr [litS "accomplishment"],
     hdr [litS "award", sStar, optRx (seqRx [litRx "and", sPlus, litS "achievement"])],
     hdr [litS "honor", sStar, optRx (seqRx [litRx "and", sPlus, litS "award"])],
     hdr [litRx "recognition"]]),
   ("languages",
    [hdr [litS "language"],
     hdr [litRx "language", sStar,
          optRx (Rx.alt (litRx "skills") (litRx "proficiency"))]]),
   ("interests",
    [hdr [litS "interest"],
     hdr [litS "hobbie", sStar, optRx (seqRx [litRx "and", sPlus, litS "interest"])],
     hdr [litRx "personal", sStar, litS "interest"],
     hdr [litS "activitie"]]),
   ("references",
    [hdr [litS "reference"],
     hdr [litRx "professional", sStar, litS "reference"],
     hdr [litS "reference", sStar, litRx "available", sStar,
          optRx (seqRx [litRx "upon", sPlus, litRx "request"])]]),
   ("volunteer",
    [hdr [litRx "volunteer", sStar, optRx (Rx.alt (litRx "experience") (litRx "work"))],
     hdr [litRx "volunteering"],
     hdr [litRx "community", sStar, optRx (Rx.alt (litRx "service") (litRx "involvement"))]])]

/-! ### Contact patterns (`_compile_contact_patterns`,
text_cleaner.py:101-108) -/

/-- `[A-Za-z0-9._%+-]` (email local part). -/
def emailLocalChar (c : Char) : Bool :=
  isLowerAZ c || isUpperAZ c || isDigitChar c ||
    c = '.' || c = '_' || c = '%' || c = '+' || c = '-'

/-- `[A-Za-z0-9.-]` (email domain). -/
def emailDomainChar (c : Char) : Bool :=
  isLowerAZ c || isUpperAZ c || isDigitChar c || c = '.' || c = '-'

/-- `[A-Z|a-z]` — note the literal `'|'` inside the class, as in the
source. -/
def tldChar (c : Char) : Bool :=
  isLowerAZ c || isUpperAZ c || c = '|'

/-- `[-.\s]`. -/
def dashDotSpace (c : Char) : Bool :=
  c = '-' || c = '.' || isSpaceChar c

/-- `[A-Za-z0-9-]` (linkedin/github handle). -/
def handleChar (c : Char) : Bool :=
  isLowerAZ c || isUpperAZ c || isDigitChar c || c = '-'

/-- `\b[A-Za-z0-9._%+-]+@[A-Za-z0-9.-]+\.[A-Z|a-z]{2,}\b` (without the
boundary markers, which `searchB true true` supplies). -/
def emailRx : Rx :=
  seqRx [plusRx (Rx.cls emailLocalChar), chrRx '@', plusRx (Rx.cls emailDomainChar),
         chrRx '.', Rx.cls tldChar, plusRx (Rx.cls tldChar)]

/-- `(\+?1?[-.\s]?)?(\(?\d{3}\)?[-.\s]?\d{3}[-.\s]?\d{4})`, groups
dropped for Boolean search. -/
def phoneRx : Rx :=
  seqRx [optRx (seqRx [optRx (chrRx '+'), optRx (chrRx '1'), optRx (Rx.cls dashDotSpace)]),
         optRx (chrRx '('), repRx (Rx.cls isDigitChar) 3, optRx (chrRx ')'),
         optRx (Rx.cls dashDotSpace), repRx (Rx.cls isDigitChar) 3,
         optRx (Rx.cls dashDotSpace), repRx (Rx.cls isDigitChar) 4]

/-- `(?:linkedin\.com/in/|linkedin\.com/pub/)([A-Za-z0-9-]+)` with
IGNORECASE, group markers dropped for Boolean search. -/
def linkedinRx : Rx :=
  Rx.cat (Rx.alt (litCIRx "linkedin.com/in/") (litCIRx "linkedin.com/pub/"))
    (plusRx (Rx.cls handleChar))

/-- `(?:github\.com/)([A-Za-z0-9-]+)` with IGNORECASE, group markers
dropped for Boolean search. -/
def githubRx : Rx :=
  Rx.cat (litCIRx "github.com/") (plusRx (Rx.cls handleChar))

/-- `any(pattern.search(line) for pattern in contact_patterns.values())`. -/
def contactSearch (l : List Char) : Bool :=
  searchB true true emailRx l || searchB false false phoneRx l ||
    searchB false false linkedinRx l || searchB false false githubRx l

/-! ## `_is_section_header`, `_is_likely_resume_header`,
`_extract_name_from_header` (text_cleaner.py:177-275) -/

/-- Python `str.isupper` restricted to ASCII: at least one cased
character and no lowercase one. -/
def pyIsUpper (l : List Char) : Bool :=
  l.any (fun c => isLowerAZ c || isUpperAZ c) && !(l.any isLowerAZ)

/-- Python `str.isalpha` restricted to ASCII. -/
def pyIsAlpha (l : List Char) : Bool :=
  !(l.isEmpty) && l.all (fun c => isLowerAZ c || isUpperAZ c)

/-- `word[0].isupper()` for a split word (always non-empty). -/
def headIsUpper : List Char → Bool
  | [] => false
  | c :: _ => isUpperAZ c

/-- The ALL-CAPS fallback of `_is_section_header`
(text_cleaner.py:193-201).  The branch textually rewrites each
compiled pattern into a "core" pattern and `re.match`es it against the
lowercased, colon-stripped line.  Only the first three rewritten
patterns are syntactically valid regexes:

* `contact_info[0]` becomes `contact\s*info|information`,
* `contact_info[1]` becomes `personal\s*info|information|details`,
* `summary[0]` becomes `professional\s*summary`;

the fourth one tried, from `summary[1]`, becomes
`career\s*summary|overview)` whose unbalanced parenthesis makes
`re.match` raise `re.error`, which propagates out of the caller.  The
iteration therefore returns at the first of the three valid prefixes
that matches and otherwise raises, modelled as `Except.error ()`. -/
def capsFallback (lineLower : List Char) : Except Unit (Option String) :=
  if Rx.prefMatch (Rx.alt (seqRx [litRx "contact", sStar, litRx "info"])
      (litRx "information")) lineLower then
    .ok (some "contact_info")
  else if Rx.prefMatch (altRx [seqRx [litRx "personal", sStar, litRx "info"],
      litRx "information", litRx "details"]) lineLower then
    .ok (some "contact_info")
  else if Rx.prefMatch (seqRx [litRx "professional", sStar, litRx "summary"]) lineLower then
    .ok (some "summary")
  else .error ()

/-- First canonical section whose pattern list matches the whole line
(case-insensitively), in table order (text_cleaner.py:186-189). -/
def findCanonical (l : List Char) : Option String :=
  let low := l.map lowerChar
  sectionPatterns.findSome? fun np =>
    if np.2.any (fun p => Rx.matchFull p low) then some np.1 else none

/-- Does the stripped line look like `**...**` (the bold-header check,
text_cleaner.py:204), and its inner group (`.+` matches no newline)? -/
def boldShape (l : List Char) : Bool :=
  decide (5 ≤ l.length) && decide (l.take 2 = ['*', '*'])
    && decide (l.drop (l.length - 2) = ['*', '*'])
    && ((l.drop 2).take (l.length - 4)).all (· ≠ '\n')

/-- `_is_section_header` (text_cleaner.py:177-208), fuelled for the
bold-header recursion (each step strips four characters, so
`length + 1` fuel suffices).  `Except.error ()` models the `re.error`
raised inside the ALL-CAPS fallback. -/
def isSectionHeaderAux : ℕ → List Char → Except Unit (Option String)
  | 0, _ => .ok none
  | fuel + 1, line0 =>
    let l := stripChars line0
    if l.length < 2 || 50 < l.length then .ok none
    else
      match findCanonical l with
      | some name => .ok (some name)
      | none =>
        if pyIsUpper l && decide ((splitWsChars l).length ≤ 4) then
          capsFallback (stripChars ((l.map lowerChar).filter (· ≠ ':')))
        else if boldShape l then
          isSectionHeaderAux fuel ((l.drop 2).take (l.length - 4))
        else .ok none

/-- `_is_section_header` on a line (no embedded newlines in callers). -/
def isSectionHeader (line : String) : Except Unit (Option String) :=
  isSectionHeaderAux (line.length + 1) line.data

/-- `_is_likely_resume_header` (text_cleaner.py:210-249).  The float
comparison `title_case_count >= len(words) * 0.7` is modelled as
`10*count ≥ 7*n`; for the reachable `n ≤ 4` the binary-float value of
`n * 0.7` and the rational `7n/10` lie strictly between the same
consecutive integers, so the integer comparison agrees. -/
def likelyHeader (line : String) (contextLines : List String) : Bool :=
  let l := stripChars line.data
  if l.length = 0 || l.length < 3 then false
  else if 40 < l.length then false
  else if contactSearch l then false
  else
    let words := splitWsChars l
    if decide (words.length ≤ 4)
        && (decide (10 * (words.filter headIsUpper).length ≥ 7 * words.length)
            || pyIsUpper l) then
      true
    else if l.getLast? = some ':' then true
    else
      match contextLines with
      | [] => false
      | c0 :: _ =>
        let nl := stripChars c0.data
        decide (nl ≠ []) && decide (2 * nl.length ≥ l.length)
          && nl.all (fun c => c = '=' || c = '-' || c = '_' || c = '*')

/-- `_extract_name_from_header` (text_cleaner.py:251-275): scan the
first five lines for a 2–4-word fully alphabetic title-cased line
without contact info that is not a section header. -/
def extractNameGo : List String → Except Unit (Option String)
  | [] => .ok none
  | l :: rest =>
    let ls := stripChars l.data
    if ls = [] then extractNameGo rest
    else if contactSearch ls then extractNameGo rest
    else
      match isSectionHeaderAux (ls.length + 1) ls with
      | .error e => .error e
      | .ok (some _) => extractNameGo rest
      | .ok none =>
        let ws := splitWsChars ls
        if decide (2 ≤ ws.length) && decide (ws.length ≤ 4)
            && ws.all (fun w => headIsUpper w && pyIsAlpha w) then
          .ok (some ⟨ls⟩)
        else extractNameGo rest

/-- `_extract_name_from_header` on the whole text. -/
def extractName (text : String) : Except Unit (Option String) :=
  extractNameGo ((pySplitNl text).take 5)

/-! ## `TextCleaner.extract_sections` (text_cleaner.py:277-392)

A `SectionMap` is a Python dict: an insertion-ordered association list
with unique keys.  `dictSet` is `d[k] = v`; `dictMergeSection` is the
merge `d[k] += '\n\n' + v` when the key exists. -/

/-- Insertion-ordered string dictionary. -/
abbrev SectionMap := List (String × String)

/-- Python `d.get(k)`. -/
def dictLookup (m : SectionMap) (k : String) : Option String :=
  (m.find? fun kv => kv.1 = k).map (·.2)

/-- Python `d[k] = v`: replace in place or append. -/
def dictSet (m : SectionMap) (k v : String) : SectionMap :=
  match m with
  | [] => [(k, v)]
  | kv :: rest => if kv.1 = k then (k, v) :: rest else kv :: dictSet rest k v

/-- Section merge (text_cleaner.py:335-339): concatenate with a blank
line if the key exists, else insert. -/
def dictMergeSection (m : SectionMap) (k v : String) : SectionMap :=
  match m with
  | [] => [(k, v)]
  | kv :: rest =>
    if kv.1 = k then (k, kv.2 ++ "\n\n" ++ v) :: rest
    else kv :: dictMergeSection rest k v

/-- Python `s.split(sep, 1)`: the text before the first occurrence and
the text after it, if the separator occurs. -/
def splitFirst (sep : Char) : List Char → Option (List Char × List Char)
  | [] => none
  | c :: rest =>
    if c = sep then some ([], rest)
    else (splitFirst sep rest).map fun p => (c :: p.1, p.2)

/-! ### Contact-info value extraction (text_cleaner.py:375-392)

The claims never inspect these values (their inputs have no contact
matches); first matches are computed leftmost, with the longest match
at the chosen position — which coincides with Python's greedy
backtracking for these patterns, whose adjacent parts use disjoint
character classes. -/

/-- Leftmost handle (the single capture group) for the linkedin/github
patterns: any of the given case-insensitive prefixes followed by a
non-empty run of `[A-Za-z0-9-]`. -/
def firstHandleAux (pres : List (List Char)) : List Char → Option String
  | [] => none
  | c :: rest =>
    match pres.findSome? (fun p => tryLitCI p (c :: rest)) with
    | some rem =>
      let run := rem.takeWhile handleChar
      if run.isEmpty then firstHandleAux pres rest else some ⟨run⟩
    | none => firstHandleAux pres rest

/-- Consume an optional literal character: candidate remainders in
greedy priority order (present first). -/
def eatOpt (c : Char) (s : List Char) : List (List Char) :=
  match s with
  | d :: rest => if d = c then [rest, s] else [s]
  | [] => [s]

/-- Consume an optional class character, greedy priority order. -/
def eatOptCls (p : Char → Bool) (s : List Char) : List (List Char) :=
  match s with
  | d :: rest => if p d then [rest, s] else [s]
  | [] => [s]

/-- Consume exactly `n` digits. -/
def eatDigits (n : ℕ) (s : List Char) : Option (List Char) :=
  if n ≤ s.length && (s.take n).all isDigitChar then some (s.drop n) else none

/-- Match the phone group 2 `\(?\d{3}\)?[-.\s]?\d{3}[-.\s]?\d{4}` at
the start of `s`, returning the number of characters consumed. -/
def phoneG2At (s : List Char) : Option ℕ :=
  (eatOpt '(' s).findSome? fun s1 =>
    (eatDigits 3 s1).bind fun s2 =>
      (eatOpt ')' s2).findSome? fun s3 =>
        (eatOptCls dashDotSpace s3).findSome? fun s4 =>
          (eatDigits 3 s4).bind fun s5 =>
            (eatOptCls dashDotSpace s5).findSome? fun s6 =>
              (eatDigits 4 s6).map fun s7 => s.length - s7.length

/-- Match the full phone pattern at the start of `s` and return the
group-2 span. -/
def phoneG2From (s : List Char) : Option (List Char) :=
  (eatOpt '+' s).findSome? fun s1 =>
    (eatOpt '1' s1).findSome? fun s2 =>
      (eatOptCls dashDotSpace s2).findSome? fun s3 =>
        (phoneG2At s3).map fun n => s3.take n

/-- Group 2 of the leftmost phone match (`matches[0][1]`,
text_cleaner.py:387). -/
def phoneFirstG2 : List Char → Option String
  | [] => none
  | c :: rest =>
    match phoneG2From (c :: rest) with
    | some g2 => some ⟨g2⟩
    | none => phoneFirstG2 rest

/-- The `contact_info` entries found in the concatenated section bodies
(text_cleaner.py:377-389), in pattern order. -/
def contactEntries (secs : SectionMap) : List (String × String) :=
  let t := (String.intercalate " " (secs.map (·.2))).data
  (match (findallB true true emailRx t).head? with
    | some e => [("email", e)]
    | none => []) ++
  (match phoneFirstG2 t with
    | some g2 => [("phone", ⟨g2.data.filter fun c => isDigitChar c || c = '+'⟩)]
    | none => []) ++
  (match firstHandleAux ["linkedin.com/in/".data, "linkedin.com/pub/".data] t with
    | some h => [("linkedin", h)]
    | none => []) ++
  (match firstHandleAux ["github.com/".data] t with
    | some h => [("github", h)]
    | none => [])

/-- `_extract_contact_info` (text_cleaner.py:375-392). -/
def extractContactInfo (secs : SectionMap) : SectionMap :=
  if (contactEntries secs).isEmpty then secs
  else
    dictSet secs "contact_info"
      (String.intercalate "\n" ((contactEntries secs).map fun kv => kv.1 ++ ": " ++ kv.2))

/-- Dynamic section name from a heuristic header
(text_cleaner.py:321-322): strip non-word/space characters, strip,
lowercase, and collapse whitespace runs to `'_'`.  On a stripped
string, `re.sub(r'\s+', '_', ·)` equals joining the whitespace-split
words with `'_'`. -/
def slugify (line : String) : String :=
  let s1 := line.data.filter fun c => isWordChar c || isSpaceChar c
  let s2 := (stripChars s1).map lowerChar
  String.intercalate "_" ((splitWsChars s2).map fun w => (⟨w⟩ : String))

/-- The flush of buffered section content at a header transition or at
end of input (text_cleaner.py:332-339 and 358-364): content shorter
than `min_section_length` once stripped is discarded. -/
def flushSection (minLen : ℕ) (secs : SectionMap) (cur : String)
    (buf : List String) : SectionMap :=
  if buf.isEmpty || cur = "" then secs
  else if minLen ≤ (pyStrip (String.intercalate "\n" buf)).length then
    dictMergeSection secs cur (pyStrip (String.intercalate "\n" buf))
  else secs

/-- Inline content on a header line after a colon
(text_cleaner.py:346-349). -/
def headerInline (line : String) : List String :=
  match splitFirst ':' line.data with
  | none => []
  | some pr =>
    let a := pyStrip ⟨pr.2⟩
    if a = "" then [] else [a]

/-- Is the next context line an underline of `=-_*` characters
(text_cleaner.py:328)? -/
def underlineNext (ctx : List String) : Bool :=
  match ctx with
  | [] => false
  | c0 :: _ =>
    decide (c0 ≠ "") && c0.data.all fun c => c = '=' || c = '-' || c = '_' || c = '*'

/-- The scanning loop of `extract_sections` (text_cleaner.py:301-364),
fuelled by the number of remaining lines (each step consumes at least
one line).  `Except.error ()` propagates the `re.error` that
`_is_section_header` can raise. -/
def scanLinesAux (minLen : ℕ) :
    ℕ → List String → String → List String → SectionMap → Except Unit SectionMap
  | 0, _, cur, buf, secs => .ok (flushSection minLen secs cur buf)
  | _ + 1, [], cur, buf, secs => .ok (flushSection minLen secs cur buf)
  | fuel + 1, l :: rest, cur, buf, secs =>
    let line := pyStrip l
    if line = "" then
      scanLinesAux minLen fuel rest cur (if buf.isEmpty then buf else buf ++ [""]) secs
    else
      let ctx := (rest.take 2).map pyStrip
      match isSectionHeader line with
      | .error e => .error e
      | .ok canonical =>
        let secName : Option String :=
          match canonical with
          | some n => some n
          | none =>
            if likelyHeader line ctx then
              let cn := slugify line
              if cn ≠ "" ∧ cn.length ≤ 30 then some cn else none
            else none
        match secName with
        | some name =>
          scanLinesAux minLen fuel (if underlineNext ctx then rest.drop 1 else rest)
            name (headerInline line) (flushSection minLen secs cur buf)
        | none => scanLinesAux minLen fuel rest cur (buf ++ [line]) secs

/-- `TextCleaner.extract_sections` (text_cleaner.py:277-373). -/
def extract_sections (text : String) (minLen : ℕ) : Except Unit SectionMap :=
  if text = "" then .ok [("other", "")]
  else
    match extractName text with
    | .error e => .error e
    | .ok nameOpt =>
      let secs0 : SectionMap :=
        match nameOpt with
        | some n => [("name", n)]
        | none => []
      let lines := pySplitNl text
      match scanLinesAux minLen lines.length lines "header" [] secs0 with
      | .error e => .error e
      | .ok secs1 =>
        let secs2 := if secs1.length ≤ 1 then dictSet secs1 "content" (pyStrip text) else secs1
        .ok (extractContactInfo secs2)

/-! ### Dictionary lemmas -/

deriving instance DecidableEq for Except

theorem dictLookup_some_mem {m : SectionMap} {k v : String}
    (h : dictLookup m k = some v) : (k, v) ∈ m := by
  induction m with
  | nil => simp [dictLookup] at h
  | cons kv rest ih =>
    by_cases hk : kv.1 = k
    · have he : dictLookup (kv :: rest) k = some kv.2 := by
        unfold dictLookup; rw [List.find?]; simp [hk]
      rw [he] at h
      cases h
      have heq : (k, kv.2) = kv := by rw [← hk]
      exact List.mem_cons.mpr (Or.inl heq)
    · have he : dictLookup (kv :: rest) k = dictLookup rest k := by
        unfold dictLookup; rw [List.find?]; simp [hk]
      rw [he] at h
      exact List.mem_cons_of_mem _ (ih h)

theorem dictLookup_dictSet_self (m : SectionMap) (k v : String) :
    dictLookup (dictSet m k v) k = some v := by
  induction m with
  | nil => simp [dictSet, dictLookup, List.find?]
  | cons kv rest ih =>
    unfold dictSet
    by_cases hk : kv.1 = k
    · rw [if_pos hk]
      simp [dictLookup, List.find?]
    · rw [if_neg hk]
      unfold dictLookup
      rw [List.find?]
      simp only [hk, decide_False]
      exact ih

theorem dictLookup_dictSet_other (m : SectionMap) (k v k' : String) (h : k' ≠ k) :
    dictLookup (dictSet m k v) k' = dictLookup m k' := by
  induction m with
  | nil =>
    unfold dictSet dictLookup
    rw [List.find?]
    have h1 : ¬ (k = k') := fun he => h he.symm
    simp [h1]
  | cons kv rest ih =>
    unfold dictSet
    by_cases hk : kv.1 = k
    · rw [if_pos hk]
      unfold dictLookup
      rw [List.find?, List.find?]
      have h1 : ¬ (k = k') := fun he => h he.symm
      have h2 : ¬ (kv.1 = k') := by rw [hk]; exact h1
      simp only [h1, h2, decide_False]
    · rw [if_neg hk]
      unfold dictLookup
      rw [List.find?, List.find?]
      by_cases h2 : kv.1 = k'
      · simp only [h2, decide_True]
      · simp only [h2, decide_False]
        exact ih

theorem mem_dictSet {m : SectionMap} {k v : String} {kv : String × String}
    (h : kv ∈ dictSet m k v) : kv ∈ m ∨ kv.1 = k := by
  induction m with
  | nil =>
    unfold dictSet at h
    rcases List.mem_singleton.mp h with rfl
    exact Or.inr rfl
  | cons kv0 rest ih =>
    unfold dictSet at h
    by_cases hk : kv0.1 = k
    · rw [if_pos hk] at h
      rcases List.mem_cons.mp h with rfl | hmem
      · exact Or.inr rfl
      · exact Or.inl (List.mem_cons_of_mem _ hmem)
    · rw [if_neg hk] at h
      rcases List.mem_cons.mp h with rfl | hmem
      · exact Or.inl (List.mem_cons_self _ _)
      · rcases ih hmem with h1 | h1
        · exact Or.inl (List.mem_cons_of_mem _ h1)
        · exact Or.inr h1

theorem mem_dictMergeSection {m : SectionMap} {k v : String} {kv : String × String}
    (h : kv ∈ dictMergeSection m k v) :
    kv ∈ m ∨ (kv.1 = k ∧ kv.2 = v)
      ∨ ∃ old, (kv.1, old) ∈ m ∧ kv.1 = k ∧ kv.2 = old ++ "\n\n" ++ v := by
  induction m with
  | nil =>
    unfold dictMergeSection at h
    rcases List.mem_singleton.mp h with rfl
    exact Or.inr (Or.inl ⟨rfl, rfl⟩)
  | cons kv0 rest ih =>
    unfold dictMergeSection at h
    by_cases hk : kv0.1 = k
    · rw [if_pos hk] at h
      rcases List.mem_cons.mp h with rfl | hmem
      · refine Or.inr (Or.inr ⟨kv0.2, ?_, rfl, rfl⟩)
        have heq : (k, kv0.2) = kv0 := by rw [← hk]
        exact List.mem_cons.mpr (Or.inl heq)
      · exact Or.inl (List.mem_cons_of_mem _ hmem)
    · rw [if_neg hk] at h
      rcases List.mem_cons.mp h with rfl | hmem
      · exact Or.inl (List.mem_cons_self _ _)
      · rcases ih hmem with h1 | h1 | ⟨old, hold, hkk, hvv⟩
        · exact Or.inl (List.mem_cons_of_mem _ h1)
        · exact Or.inr (Or.inl h1)
        · exact Or.inr (Or.inr ⟨old, List.mem_cons_of_mem _ hold, hkk, hvv⟩)

theorem dictLookup_extractContactInfo (secs : SectionMap) (k : String)
    (h : k ≠ "contact_info") :
    dictLookup (extractContactInfo secs) k = dictLookup secs k := by
  unfold extractContactInfo
  split
  · rfl
  · exact dictLookup_dictSet_other _ _ _ _ h

theorem mem_extractContactInfo {secs : SectionMap} {kv : String × String}
    (h : kv ∈ extractContactInfo secs) : kv ∈ secs ∨ kv.1 = "contact_info" := by
  unfold extractContactInfo at h
  split at h
  · exact Or.inl h
  · exact mem_dictSet h

/-! ### Claim C10: short section bodies are discarded -/

theorem flushSection_inv {minLen : ℕ} {secs : SectionMap} {cur : String} {buf : List String}
    (hinv : ∀ kv ∈ secs, kv.1 = "name" ∨ minLen ≤ kv.2.length) :
    ∀ kv ∈ flushSection minLen secs cur buf, kv.1 = "name" ∨ minLen ≤ kv.2.length := by
  intro kv hkv
  unfold flushSection at hkv
  split at hkv
  · exact hinv kv hkv
  · split at hkv
    next hlen =>
      rcases mem_dictMergeSection hkv with hmem | ⟨_, hv⟩ | ⟨old, _, _, hv⟩
      · exact hinv kv hmem
      · right; rw [hv]; exact hlen
      · right
        rw [hv]
        have hla : (old ++ "\n\n" ++ pyStrip (String.intercalate "\n" buf)).length
            = old.length + 2 + (pyStrip (String.intercalate "\n" buf)).length := by
          rw [String.length_append, String.length_append,
            show ("\n\n" : String).length = 2 from rfl]
        rw [hla]
        omega
    next => exact hinv kv hkv

theorem scanLinesAux_inv (minLen : ℕ) :
    ∀ (fuel : ℕ) (lines : List String) (cur : String) (buf : List String) (secs : SectionMap),
      (∀ kv ∈ secs, kv.1 = "name" ∨ minLen ≤ kv.2.length) →
      ∀ m, scanLinesAux minLen fuel lines cur buf secs = .ok m →
        ∀ kv ∈ m, kv.1 = "name" ∨ minLen ≤ kv.2.length := by
  intro fuel
  induction fuel with
  | zero =>
    intro lines cur buf secs hinv m hm
    cases lines <;> (simp only [scanLinesAux] at hm; cases hm; exact flushSection_inv hinv)
  | succ n ih =>
    intro lines cur buf secs hinv m hm
    cases lines with
    | nil =>
      simp only [scanLinesAux] at hm
      cases hm
      exact flushSection_inv hinv
    | cons l rest =>
      simp only [scanLinesAux] at hm
      by_cases hb : pyStrip l = ""
      · rw [if_pos hb] at hm
        exact ih _ _ _ _ hinv m hm
      · rw [if_neg hb] at hm
        split at hm
        · cases hm
        · split at hm
          · exact ih _ _ _ _ (flushSection_inv hinv) m hm
          · exact ih _ _ _ _ hinv m hm

/-- C10: every section body stored by `extract_sections` — other than
the special `name`, `content`, `contact_info` and `other` entries — has
length at least `min_section_length`: buffered content whose stripped
length is below the threshold is discarded at header transitions and at
end of input, so a recognized header followed by a body shorter than
the threshold yields no key. -/
theorem section_bodies_min_length (text : String) (minLen : ℕ) (m : SectionMap)
    (k v : String) (hm : extract_sections text minLen = .ok m)
    (h1 : k ≠ "name") (h2 : k ≠ "content") (h3 : k ≠ "contact_info") (h4 : k ≠ "other")
    (hkv : dictLookup m k = some v) : minLen ≤ v.length := by
  simp only [extract_sections] at hm
  by_cases he : text = ""
  · rw [if_pos he] at hm
    cases hm
    have hnone : dictLookup [("other", "")] k = none := by
      unfold dictLookup
      rw [List.find?]
      have : ¬ (("other", "").1 = k) := fun hq => h4 hq.symm
      simp [this]
    rw [hnone] at hkv
    cases hkv
  · rw [if_neg he] at hm
    split at hm
    · simp at hm
    next nameOpt hn =>
      split at hm
      · simp at hm
      next secs1 hs =>
        cases hm
        have hinv0 : ∀ kv ∈ (match nameOpt with
            | some nm => [("name", nm)]
            | none => ([] : SectionMap)), kv.1 = "name" ∨ minLen ≤ kv.2.length := by
          cases nameOpt with
          | none => intro kv hkv0; simp at hkv0
          | some nm =>
            intro kv hkv0
            rcases List.mem_singleton.mp hkv0 with rfl
            exact Or.inl rfl
        have hinv1 := scanLinesAux_inv minLen _ _ _ _ _ hinv0 secs1 hs
        rw [dictLookup_extractContactInfo _ _ h3] at hkv
        have hk2 : dictLookup
            (if secs1.length ≤ 1 then dictSet secs1 "content" (pyStrip text) else secs1) k
            = dictLookup secs1 k := by
          split
          · exact dictLookup_dictSet_other _ _ _ _ h2
          · rfl
        rw [hk2] at hkv
        rcases hinv1 (k, v) (dictLookup_some_mem hkv) with hq | hq
        · exact absurd hq h1
        · exact hq

/-- Witness for C10: a stored section body meets the threshold. -/
theorem section_bodies_min_length_witness :
    extract_sections "SKILLS\nPython and SQL stuff" 5
        = Except.ok [("skills", "Python and SQL stuff"),
                     ("content", "SKILLS\nPython and SQL stuff")]
    ∧ 5 ≤ ("Python and SQL stuff" : String).length := by
  constructor
  · decide
  · exact section_bodies_min_length "SKILLS\nPython and SQL stuff" 5
      [("skills", "Python and SQL stuff"), ("content", "SKILLS\nPython and SQL stuff")]
      "skills" "Python and SQL stuff" (by decide) (by decide) (by decide) (by decide)
      (by decide) (by decide)

/-! ### Claim C6: text with no recognisable headers -/

/-- No line of the input is recognised as a canonical section header
(without raising) nor accepted by the likely-header heuristic, each
checked exactly as the scanning loop does (stripped line, context of
the next two stripped lines). -/
def noHeaderLines : List String → Bool
  | [] => true
  | l :: rest =>
    (match isSectionHeader (pyStrip l) with
      | Except.ok none => true
      | _ => false)
    && !(likelyHeader (pyStrip l) ((rest.take 2).map pyStrip))
    && noHeaderLines rest

/-- The content buffer accumulated by the scan when every line is a
plain content line. -/
def accumBuf : List String → List String → List String
  | buf, [] => buf
  | buf, l :: rest =>
    accumBuf (if pyStrip l = "" then (if buf.isEmpty then buf else buf ++ [""])
              else buf ++ [pyStrip l]) rest

theorem scanLinesAux_no_headers (minLen : ℕ) :
    ∀ (lines : List String) (fuel : ℕ), lines.length ≤ fuel →
      noHeaderLines lines = true →
      ∀ (cur : String) (buf : List String) (secs : SectionMap),
        scanLinesAux minLen fuel lines cur buf secs
          = .ok (flushSection minLen secs cur (accumBuf buf lines)) := by
  intro lines
  induction lines with
  | nil =>
    intro fuel _ _ cur buf secs
    cases fuel <;> rfl
  | cons l rest ih =>
    intro fuel hfuel hnh cur buf secs
    cases fuel with
    | zero => simp at hfuel
    | succ n =>
      simp only [noHeaderLines, Bool.and_eq_true, Bool.not_eq_true'] at hnh
      obtain ⟨⟨hmatch, hlk⟩, hrest⟩ := hnh
      have hfuel' : rest.length ≤ n := by simp at hfuel; omega
      have h1 : isSectionHeader (pyStrip l) = Except.ok none := by
        rcases hh : isSectionHeader (pyStrip l) with e | o
        · rw [hh] at hmatch; cases hmatch
        · cases o with
          | none => rfl
          | some s => rw [hh] at hmatch; cases hmatch
      simp only [scanLinesAux]
      by_cases hb : pyStrip l = ""
      · rw [if_pos hb]
        rw [ih n hfuel' hrest cur _ secs]
        have hacc : accumBuf buf (l :: rest)
            = accumBuf (if buf.isEmpty then buf else buf ++ [""]) rest := by
          rw [accumBuf, if_pos hb]
        rw [hacc]
      · rw [if_neg hb, h1]
        simp only [hlk, Bool.false_eq_true, if_false]
        rw [ih n hfuel' hrest cur _ secs]
        have hacc : accumBuf buf (l :: rest) = accumBuf (buf ++ [pyStrip l]) rest := by
          rw [accumBuf, if_neg hb]
        rw [hacc]

/-- C6 amended: for a non-empty text in which no line is recognised as
a header (canonically or heuristically) and no candidate name is
extracted, `extract_sections` maps `'content'` to `text.strip()`; the
result may additionally contain a `'header'` key (the accumulated body,
kept when it reaches `min_section_length`) and a `'contact_info'` key,
so `'content'` need not be the only key. -/
theorem extract_sections_no_headers (text : String) (hne : text ≠ "")
    (hname : extractName text = Except.ok none)
    (hnh : noHeaderLines (pySplitNl text) = true) :
    ∃ m, extract_sections text 5 = .ok m
      ∧ dictLookup m "content" = some (pyStrip text)
      ∧ ∀ kv ∈ m, kv.1 = "header" ∨ kv.1 = "content" ∨ kv.1 = "contact_info" := by
  have hscan := scanLinesAux_no_headers 5 (pySplitNl text) (pySplitNl text).length
    le_rfl hnh "header" [] []
  have hflush : flushSection 5 [] "header" (accumBuf [] (pySplitNl text)) = []
      ∨ ∃ C, flushSection 5 [] "header" (accumBuf [] (pySplitNl text)) = [("header", C)] := by
    unfold flushSection
    split
    · exact Or.inl rfl
    · split
      · exact Or.inr ⟨_, rfl⟩
      · exact Or.inl rfl
  have hlen1 : (flushSection 5 [] "header" (accumBuf [] (pySplitNl text))).length ≤ 1 := by
    rcases hflush with h | ⟨C, h⟩ <;> simp [h]
  refine ⟨extractContactInfo
    (dictSet (flushSection 5 [] "header" (accumBuf [] (pySplitNl text)))
      "content" (pyStrip text)), ?_, ?_, ?_⟩
  · simp only [extract_sections]
    rw [if_neg hne, hname]
    simp only [hscan, hlen1, if_true, if_pos hlen1]
  · rw [dictLookup_extractContactInfo _ _ (by decide)]
    exact dictLookup_dictSet_self _ _ _
  · intro kv hkv
    rcases mem_extractContactInfo hkv with hkv2 | hc
    · rcases mem_dictSet hkv2 with hkv3 | hc
      · rcases hflush with h | ⟨C, h⟩
        · rw [h] at hkv3; cases hkv3
        · rw [h] at hkv3
          rcases List.mem_singleton.mp hkv3 with rfl
          exact Or.inl rfl
      · exact Or.inr (Or.inl hc)
    · exact Or.inr (Or.inr hc)

/-- Counterexample to C6 as stated: `"hello world foo"` satisfies the
claim's hypotheses (non-empty, no canonical header line, no
likely-header line), yet the result also stores the scanned buffer
under `'header'` — the collapse `sections['content'] = text.strip()`
adds `'content'` without removing `'header'` — so the mapping does not
have exactly the one key `'content'`. -/
theorem extract_sections_single_content_counterexample :
    ("hello world foo" : String) ≠ ""
    ∧ extractName "hello world foo" = Except.ok none
    ∧ noHeaderLines (pySplitNl "hello world foo") = true
    ∧ extract_sections "hello world foo" 5
        = Except.ok [("header", "hello world foo"), ("content", "hello world foo")]
    ∧ extract_sections "hello world foo" 5
        ≠ Except.ok [("content", "hello world foo")] := by
  refine ⟨by decide, by decide, by decide, by decide, by decide⟩

/-- Witness for the amended C6 at a concrete text. -/
theorem extract_sections_no_headers_witness :
    ∃ m, extract_sections "hello world foo" 5 = .ok m
      ∧ dictLookup m "content" = some (pyStrip "hello world foo")
      ∧ ∀ kv ∈ m, kv.1 = "header" ∨ kv.1 = "content" ∨ kv.1 = "contact_info" :=
  extract_sections_no_headers "hello world foo" (by decide) (by decide) (by decide)

/-! ## `src/parsing/extractors/entity_extractor.py` —
`_extract_dates` and `_extract_experience`

The spaCy NER fallback is a parameter `nerOrgs` giving the
organisation entities of a line. -/

/-- `Experience` (schemas.py:21-27): every field independently
optional, defaulting to `None`. -/
structure Experience where
  company : Option String := none
  position : Option String := none
  start_date : Option String := none
  end_date : Option String := none
  description : Option String := none
  location : Option String := none
deriving DecidableEq, Repr

/-- ASCII letter (the IGNORECASE reading of `[a-z]`). -/
def letterChar (c : Char) : Bool := isLowerAZ c || isUpperAZ c

/-- `[-–—]`. -/
def dateDash (c : Char) : Bool := c = '-' || c = '–' || c = '—'

/-- `DATE_PATTERNS` (patterns.py:31-36), `\b`-bounded; the IGNORECASE
literals are matched case-insensitively character by character. -/
def datePatterns : List Rx :=
  [seqRx [altRx ([ "jan", "feb", "mar", "apr", "may", "jun",
                   "jul", "aug", "sep", "oct", "nov", "dec" ].map litCIRx),
          Rx.star (Rx.cls letterChar), sPlus, repRx (Rx.cls isDigitChar) 4],
   seqRx [Rx.cls isDigitChar, optRx (Rx.cls isDigitChar), chrRx '/',
          Rx.cls isDigitChar, optRx (Rx.cls isDigitChar), chrRx '/',
          repRx (Rx.cls isDigitChar) 4],
   seqRx [repRx (Rx.cls isDigitChar) 4, sStar, Rx.cls dateDash, sStar,
          repRx (Rx.cls isDigitChar) 4],
   seqRx [repRx (Rx.cls isDigitChar) 4, sStar, Rx.cls dateDash, sStar,
          altRx ([ "present", "current", "now" ].map litCIRx)]]

/-- Order-preserving deduplication (entity_extractor.py:258-266). -/
def dedupeDates (seen : List String) : List String → List String
  | [] => []
  | d :: rest =>
    if d ∈ seen then dedupeDates seen rest
    else d :: dedupeDates (d :: seen) rest

/-- `_extract_dates` (entity_extractor.py:250-266): `findall` for each
pattern in order, concatenated, deduplicated preserving order. -/
def extractDates (text : String) : List String :=
  dedupeDates [] (datePatterns.foldr (fun p acc => findallB true true p text.data ++ acc) [])

/-- Does the text right after a newline satisfy the split lookahead
`\w.*(?:at|@|\|)|\w.*\d{4}` (entity_extractor.py:176)?  `.` does not
cross newlines, so only the next line matters: a word character
followed somewhere by `at`/`@`/`|`, or by four consecutive digits. -/
def containsSeq (needle : List Char) : List Char → Bool
  | [] => needle.isEmpty
  | c :: rest => (tryLit needle (c :: rest)).isSome || containsSeq needle rest

def has4Digits : List Char → Bool
  | [] => false
  | c :: rest =>
    (decide (4 ≤ (c :: rest).length) && ((c :: rest).take 4).all isDigitChar)
      || has4Digits rest

def expBoundaryLine (line : String) : Bool :=
  match line.data with
  | [] => false
  | c :: rest =>
    isWordChar c &&
      (containsSeq "at".data rest || rest.contains '@' || rest.contains '|'
        || has4Digits rest)

/-- Group the lines of the experience text into the blocks produced by
`re.split(r'\n(?=...)', ...)`: the pattern consumes each newline whose
following line satisfies the lookahead. -/
def groupBlocksAux : List String → List String → List (List String)
  | acc, [] => [acc.reverse]
  | acc, l :: rest =>
    if expBoundaryLine l then acc.reverse :: groupBlocksAux [l] rest
    else groupBlocksAux (l :: acc) rest

def expBlocks (text : String) : List String :=
  match pySplitNl text with
  | [] => [text]
  | l :: rest => (groupBlocksAux [l] rest).map (String.intercalate "\n")

/-! ### The first-line pattern
`^(.+?)\s+(?:at|@|\||[-–—])\s+(.+?)(?:\s*\|\s*(.+?))?$` (IGNORECASE,
entity_extractor.py:189-193)

The input is a stripped single line (no `'\n'`, no leading or trailing
whitespace), which makes the backtracking deterministic:

* lazy `(.+?)` → the smallest group-1 length is tried first;
* the separators cannot match whitespace, so the greedy `\s+` runs are
  exactly the maximal whitespace runs;
* the separator alternatives are mutually exclusive at a position;
* in the tail, the smallest group-2 length whose continuation matches
  wins, the optional `\s*\|\s*(.+?)` group being tried before the bare
  `$`; since the line ends in a non-whitespace character, the greedy
  `\s*` runs before and after `'|'` are again the maximal runs. -/

def wsRunLen (s : List Char) : ℕ := (s.takeWhile isSpaceChar).length

/-- Try `(.+?)(?:\s*\|\s*(.+?))?$` with group-2 length `b`. -/
def pcTailAt (T : List Char) (b : ℕ) : Option (List Char × Option (List Char)) :=
  let rest1 := T.drop b
  let m3 := wsRunLen rest1
  let present : Option (List Char × Option (List Char)) :=
    match rest1.drop m3 with
    | '|' :: rest3 =>
      let g3 := rest3.drop (wsRunLen rest3)
      if g3.isEmpty then none else some (T.take b, some g3)
    | _ => none
  match present with
  | some r => some r
  | none => if b = T.length then some (T.take b, none) else none

def pcTail (T : List Char) : Option (List Char × Option (List Char)) :=
  (List.range T.length).findSome? fun i => pcTailAt T (i + 1)

/-- Match the whole first-line pattern, returning
`(group 1, group 2, group 3?)`. -/
def pcMatch (fl : List Char) : Option (List Char × List Char × Option (List Char)) :=
  (List.range fl.length).findSome? fun i =>
    let a := i + 1
    let restA := fl.drop a
    let w1 := wsRunLen restA
    if w1 = 0 then none
    else
      let restB := restA.drop w1
      let sep : Option (List Char) :=
        match tryLitCI "at".data restB with
        | some r => some r
        | none =>
          match restB with
          | c :: r =>
            if c = '@' || c = '|' || c = '-' || c = '–' || c = '—' then some r else none
          | [] => none
      match sep with
      | none => none
      | some restC =>
        let w2 := wsRunLen restC
        if w2 = 0 then none
        else
          match pcTail (restC.drop w2) with
          | some g23 => some (fl.take a, g23.1, g23.2)
          | none => none

/-- Python `str.find` as an `Option` (`none` for `-1`). -/
def firstIndexOfSub (needle : List Char) : List Char → Option ℕ
  | [] => if needle.isEmpty then some 0 else none
  | c :: rest =>
    if (tryLit needle (c :: rest)).isSome then some 0
    else (firstIndexOfSub needle rest).map (· + 1)

/-- Python truthiness of an optional string field. -/
def truthy : Option String → Bool
  | none => false
  | some s => s ≠ ""

/-- The `Experience` record built from one block
(entity_extractor.py:182-221), before the keep/drop guard. -/
def buildExpRecord (nerOrgs : String → List String) (sec : String) : Experience :=
    let lines := pySplitNl (pyStrip sec)
    let first_line := lines.headD ""
    let e1 : Experience :=
      match pcMatch (pyStrip first_line).data with
      | some g => { position := some (pyStrip ⟨g.1⟩), company := some (pyStrip ⟨g.2.1⟩),
                    location := g.2.2.map fun x => pyStrip ⟨x⟩ }
      | none =>
        match nerOrgs first_line with
        | [] => {}
        | org :: _ =>
          match firstIndexOfSub org.data first_line.data with
          | some p =>
            if 0 < p then
              { company := some org, position := some (pyStrip ⟨first_line.data.take p⟩) }
            else { company := some org }
          | none => { company := some org }
    let dates := extractDates sec
    let e2 : Experience :=
      if 2 ≤ dates.length then
        { e1 with start_date := dates.get? 0, end_date := dates.get? 1 }
      else if dates.length = 1 then { e1 with end_date := dates.get? 0 }
      else e1
    let e3 : Experience :=
      if 1 < lines.length then
        { e2 with description := some (pyStrip (String.intercalate "\n" (lines.drop 1))) }
      else e2
    e3

/-- One block of `_extract_experience`: skip short blocks, build the
record, and keep it only when the `company or position` guard holds
(entity_extractor.py:179 and 223-224). -/
def processExpBlock (nerOrgs : String → List String) (sec : String) : Option Experience :=
  if (pyStrip sec).length < 20 then none
  else if truthy (buildExpRecord nerOrgs sec).company
      || truthy (buildExpRecord nerOrgs sec).position then
    some (buildExpRecord nerOrgs sec)
  else none

/-- `_extract_experience` (entity_extractor.py:168-226). -/
def _extract_experience (nerOrgs : String → List String) (experience_text : String) :
    List Experience :=
  if experience_text = "" then []
  else (expBlocks experience_text).filterMap (processExpBlock nerOrgs)

/-! ### Claims C7 and C9 about `_extract_experience` -/

theorem truthy_iff {o : Option String} : truthy o = true ↔ ∃ s, o = some s ∧ s ≠ "" := by
  cases o with
  | none => simp [truthy]
  | some s =>
    simp only [truthy, Option.some.injEq]
    constructor
    · intro h
      exact ⟨s, rfl, by simpa using h⟩
    · rintro ⟨s', rfl, h⟩
      simpa using h

/-- C9: every `Experience` record returned by `_extract_experience` has
a non-empty company or a non-empty position — a block from which
neither could be parsed is dropped by the `company or position` guard,
whatever the NER capability returns. -/
theorem extract_experience_kept_records (nerOrgs : String → List String) (text : String) :
    ∀ e ∈ _extract_experience nerOrgs text,
      (∃ s, e.company = some s ∧ s ≠ "") ∨ (∃ s, e.position = some s ∧ s ≠ "") := by
  intro e he
  unfold _extract_experience at he
  split at he
  · simp at he
  · obtain ⟨b, _, hfb⟩ := List.mem_filterMap.mp he
    unfold processExpBlock at hfb
    split at hfb
    · cases hfb
    · split at hfb
      next hguard =>
        cases hfb
        rcases Bool.or_eq_true _ _ |>.mp hguard with hc | hc
        · exact Or.inl (truthy_iff.mp hc)
        · exact Or.inr (truthy_iff.mp hc)
      next => cases hfb

/-- Witness for C9: a concrete kept record. -/
theorem extract_experience_kept_records_witness :
    ({ company := some "Initech Incorporated", position := some "Developer"} : Experience)
        ∈ _extract_experience (fun _ => []) "Developer at Initech Incorporated"
    ∧ ((∃ s, ({ company := some "Initech Incorporated",
                position := some "Developer"} : Experience).company = some s ∧ s ≠ "")
       ∨ (∃ s, ({ company := some "Initech Incorporated",
                  position := some "Developer"} : Experience).position = some s ∧ s ≠ "")) :=
  ⟨by decide,
   extract_experience_kept_records (fun _ => []) "Developer at Initech Incorporated" _ (by decide)⟩

/-- Counterexample to C7 as stated: on the scenario's first line the
date list is `["2019-2022"]` — pattern `\b\d{4}\s*[-–—]\s*\d{4}\b`
matches the whole range as one string, and no pattern matches a bare
year — so the extracted dates are not `["2019", "2022"]`, a single
date is assigned to `end_date` only, and `start_date` stays unset. -/
theorem experience_scenario_counterexample :
    extractDates "Senior Engineer | Acme Corp | 2019-2022\nLed the team of five"
        = ["2019-2022"]
    ∧ extractDates "Senior Engineer | Acme Corp | 2019-2022\nLed the team of five"
        ≠ ["2019", "2022"]
    ∧ (_extract_experience (fun _ => [])
        "Senior Engineer | Acme Corp | 2019-2022\nLed the team of five").map
          Experience.start_date = [none]
    ∧ ([none] : List (Option String)) ≠ [some "2019"]
    ∧ (_extract_experience (fun _ => [])
        "Senior Engineer | Acme Corp | 2019-2022\nLed the team of five").map
          Experience.end_date = [some "2019-2022"]
    ∧ ([some ("2019-2022" : String)]) ≠ [some "2022"] := by
  refine ⟨by decide, by decide, by decide, by decide, by decide, by decide⟩

/-- C7 amended: for the scenario block whose first line is
`"Senior Engineer | Acme Corp | 2019-2022"`, the extracted record has
`position = "Senior Engineer"` and `company = "Acme Corp"` as claimed,
but the extracted dates are `["2019-2022"]` (a single range string), so
`end_date = "2019-2022"` and `start_date` is unset; the third
pipe-separated field is assigned to `location`. -/
theorem experience_scenario_amended :
    _extract_experience (fun _ => [])
        "Senior Engineer | Acme Corp | 2019-2022\nLed the team of five"
      = [{ company := some "Acme Corp", position := some "Senior Engineer",
           start_date := none, end_date := some "2019-2022",
           description := some "Led the team of five",
           location := some "2019-2022" }] := by
  decide

/-! ## `src/parsing/core/parser.py` — `parse_batch` (parser.py:107-129)

`ResumeParser.parse` performs file I/O, PDF extraction and the full
pipeline; for the batch-isolation claim it is an abstract fallible
operation `parse : String → Except String α` (the `str(pdf_path)` key
and `str(e)` message are already strings).  `parse_batch` folds over
the paths, routing successes into `results` and exceptions into
`errors`. -/

/-- The dictionary returned by `parse_batch`. -/
structure BatchResult (α : Type) where
  results : List (String × α)
  errors : List (String × String)
  total_files : ℕ
  successful : ℕ
  failed : ℕ

/-- Generic ordered-dict update (same semantics as `dictSet`). -/
def dictSetG {α : Type} (m : List (String × α)) (k : String) (v : α) : List (String × α) :=
  match m with
  | [] => [(k, v)]
  | kv :: rest => if kv.1 = k then (k, v) :: rest else kv :: dictSetG rest k v

/-- Generic ordered-dict lookup. -/
def dictLookupG {α : Type} (m : List (String × α)) (k : String) : Option α :=
  (m.find? fun kv => kv.1 = k).map (·.2)

/-- The loop of `parse_batch` (parser.py:114-119). -/
def parseBatchGo {α : Type} (parse : String → Except String α) :
    List String → List (String × α) → List (String × String) →
      (List (String × α)) × (List (String × String))
  | [], results, errors => (results, errors)
  | p :: rest, results, errors =>
    match parse p with
    | .ok r => parseBatchGo parse rest (dictSetG results p r) errors
    | .error e => parseBatchGo parse rest results (dictSetG errors p e)

/-- `parse_batch` (parser.py:107-129). -/
def parse_batch {α : Type} (parse : String → Except String α) (paths : List String) :
    BatchResult α :=
  let re := parseBatchGo parse paths [] []
  { results := re.1
    errors := re.2
    total_files := paths.length
    successful := re.1.length
    failed := re.2.length }

theorem dictLookupG_dictSetG_self {α : Type} (m : List (String × α)) (k : String) (v : α) :
    dictLookupG (dictSetG m k v) k = some v := by
  induction m with
  | nil => simp [dictSetG, dictLookupG, List.find?]
  | cons kv rest ih =>
    unfold dictSetG
    by_cases hk : kv.1 = k
    · rw [if_pos hk]
      simp [dictLookupG, List.find?]
    · rw [if_neg hk]
      unfold dictLookupG
      rw [List.find?]
      simp only [hk, decide_False]
      exact ih

theorem dictLookupG_dictSetG_other {α : Type} (m : List (String × α)) (k k' : String) (v : α)
    (h : k' ≠ k) : dictLookupG (dictSetG m k v) k' = dictLookupG m k' := by
  induction m with
  | nil =>
    unfold dictSetG dictLookupG
    rw [List.find?]
    have h1 : ¬ (k = k') := fun he => h he.symm
    simp [h1]
  | cons kv rest ih =>
    unfold dictSetG
    by_cases hk : kv.1 = k
    · rw [if_pos hk]
      unfold dictLookupG
      rw [List.find?, List.find?]
      have h1 : ¬ (k = k') := fun he => h he.symm
      have h2 : ¬ (kv.1 = k') := by rw [hk]; exact h1
      simp only [h1, h2, decide_False]
    · rw [if_neg hk]
      unfold dictLookupG
      rw [List.find?, List.find?]
      by_cases h2 : kv.1 = k'
      · simp only [h2, decide_True]
      · simp only [h2, decide_False]
        exact ih

theorem parseBatchGo_not_mem {α : Type} (parse : String → Except String α) :
    ∀ (paths : List String) (results : List (String × α)) (errors : List (String × String))
      (p : String), p ∉ paths →
      dictLookupG (parseBatchGo parse paths results errors).1 p = dictLookupG results p
      ∧ dictLookupG (parseBatchGo parse paths results errors).2 p = dictLookupG errors p := by
  intro paths
  induction paths with
  | nil => intro results errors p _; exact ⟨rfl, rfl⟩
  | cons q rest ih =>
    intro results errors p hp
    have hpq : p ≠ q := fun he => hp (he ▸ List.mem_cons_self q rest)
    have hpr : p ∉ rest := fun hm => hp (List.mem_cons_of_mem _ hm)
    rcases hq : parse q with e | r
    · rw [parseBatchGo, hq]
      have := ih results (dictSetG errors q e) p hpr
      exact ⟨this.1, this.2.trans (dictLookupG_dictSetG_other _ _ _ _ hpq)⟩
    · rw [parseBatchGo, hq]
      have := ih (dictSetG results q r) errors p hpr
      exact ⟨this.1.trans (dictLookupG_dictSetG_other _ _ _ _ hpq), this.2⟩

theorem parseBatchGo_lookup {α : Type} (parse : String → Except String α) :
    ∀ (paths : List String) (results : List (String × α)) (errors : List (String × String))
      (p : String), p ∈ paths →
      ((∀ e, parse p = .error e →
          dictLookupG (parseBatchGo parse paths results errors).2 p = some e
          ∧ dictLookupG (parseBatchGo parse paths results errors).1 p
              = dictLookupG results p)
        ∧ (∀ r, parse p = .ok r →
          dictLookupG (parseBatchGo parse paths results errors).1 p = some r
          ∧ dictLookupG (parseBatchGo parse paths results errors).2 p
              = dictLookupG errors p)) := by
  intro paths
  induction paths with
  | nil => intro _ _ p hp; simp at hp
  | cons q rest ih =>
    intro results errors p hp
    constructor
    · intro e he
      rcases List.mem_cons.mp hp with rfl | hp'
      · rw [parseBatchGo, he]
        by_cases hmem : p ∈ rest
        · exact ⟨((ih _ _ p hmem).1 e he).1, ((ih _ _ p hmem).1 e he).2⟩
        · have hn := parseBatchGo_not_mem parse rest results (dictSetG errors p e) p hmem
          exact ⟨hn.2.trans (dictLookupG_dictSetG_self _ _ _), hn.1⟩
      · rcases hq : parse q with e' | r'
        · rw [parseBatchGo, hq]
          have hh := (ih results (dictSetG errors q e') p hp').1 e he
          exact ⟨hh.1, hh.2⟩
        · rw [parseBatchGo, hq]
          have hpq : p ≠ q := by
            intro hEq
            rw [hEq, hq] at he
            cases he
          have hh := (ih (dictSetG results q r') errors p hp').1 e he
          exact ⟨hh.1, hh.2.trans (dictLookupG_dictSetG_other _ _ _ _ hpq)⟩
    · intro r hr
      rcases List.mem_cons.mp hp with rfl | hp'
      · rw [parseBatchGo, hr]
        by_cases hmem : p ∈ rest
        · exact ⟨((ih _ _ p hmem).2 r hr).1, ((ih _ _ p hmem).2 r hr).2⟩
        · have hn := parseBatchGo_not_mem parse rest (dictSetG results p r) errors p hmem
          exact ⟨hn.1.trans (dictLookupG_dictSetG_self _ _ _), hn.2⟩
      · rcases hq : parse q with e' | r'
        · rw [parseBatchGo, hq]
          have hpq : p ≠ q := by
            intro hEq
            rw [hEq, hq] at hr
            cases hr
          have hh := (ih results (dictSetG errors q e') p hp').2 r hr
          exact ⟨hh.1, hh.2.trans (dictLookupG_dictSetG_other _ _ _ _ hpq)⟩
        · rw [parseBatchGo, hq]
          have hh := (ih (dictSetG results q r') errors p hp').2 r hr
          exact ⟨hh.1, hh.2⟩

/-- C8: `parse_batch` isolates per-document failures.  For every list
of input paths and every path in it: if parsing that document fails,
the batch result records the error message under that path in
`errors` and the path has no entry in `results`; if parsing succeeds,
the result is collected under the path in `results` with no entry in
`errors`.  The function is total (the batch always completes), and
`total_files` counts all inputs. -/
theorem parse_batch_isolates_failures {α : Type} (parse : String → Except String α)
    (paths : List String) (p : String) (hp : p ∈ paths) :
    (∀ e, parse p = .error e →
      dictLookupG (parse_batch parse paths).errors p = some e
      ∧ dictLookupG (parse_batch parse paths).results p = none)
    ∧ (∀ r, parse p = .ok r →
      dictLookupG (parse_batch parse paths).results p = some r
      ∧ dictLookupG (parse_batch parse paths).errors p = none)
    ∧ (parse_batch parse paths).total_files = paths.length := by
  have h := parseBatchGo_lookup parse paths [] [] p hp
  exact ⟨fun e he => (h.1 e he), fun r hr => (h.2 r hr), rfl⟩

/-- Witness for C8: one failing and one succeeding document in the
same batch. -/
theorem parse_batch_isolates_failures_witness :
    (let parse : String → Except String ℕ :=
        fun s => if s = "bad.pdf" then .error "boom" else .ok 7
     dictLookupG (parse_batch parse ["good.pdf", "bad.pdf"]).errors "bad.pdf" = some "boom"
     ∧ dictLookupG (parse_batch parse ["good.pdf", "bad.pdf"]).results "bad.pdf" = none)
    ∧ (let parse : String → Except String ℕ :=
        fun s => if s = "bad.pdf" then .error "boom" else .ok 7
       dictLookupG (parse_batch parse ["good.pdf", "bad.pdf"]).results "good.pdf" = some 7
       ∧ dictLookupG (parse_batch parse ["good.pdf", "bad.pdf"]).errors "good.pdf" = none) :=
  ⟨(parse_batch_isolates_failures
      (fun s => if s = "bad.pdf" then .error "boom" else .ok 7)
      ["good.pdf", "bad.pdf"] "bad.pdf" (by decide)).1 "boom" (by decide),
   (parse_batch_isolates_failures
      (fun s => if s = "bad.pdf" then .error "boom" else .ok 7)
      ["good.pdf", "bad.pdf"] "good.pdf" (by decide)).2.1 7 (by decide)⟩

end ResumeParsing
